import Mathlib

/-!
# Verification of the Klipper-style scheduler core (src/sched.c)

This file is a shallow embedding of the timer-scheduler in `src/sched.c` and a
formal development of the testable properties stated in the repository's
specification.  The timer list (an intrusive, sentinel-terminated, singly
linked list of `struct timer`) is modelled as a `List TimerId` together with a
waketime map `TimerId → Nat`; every waketime is a 32-bit value and all
comparisons go through the wrap-safe predicate `timer_is_before`, exactly as in
the C source.  Non-local control transfer (`shutdown` / `longjmp`) is modelled
by explicit result constructors, and running off the end of the list (a null
pointer dereference in C) is modelled by a `crash` constructor.
-/

/-- 2^32, the size of the tick space. -/
def u32 : Nat := 4294967296

/-- 2^31, the half range used by the wrap-safe comparison and the sentinel. -/
def half32 : Nat := 2147483648

/-- Wrap-safe time comparison from sched.h / board code:
`timer_is_before(a, b) := (int32_t)(a - b) < 0`.  For `b < 2^32` the C
expression equals `(a - b) mod 2^32 ∈ [2^31, 2^32)`. -/
def timer_is_before (a b : Nat) : Bool := decide (half32 ≤ (a + u32 - b) % u32)

/-- Linearisation key of a waketime `w` relative to a window base `b`:
`(w - b) mod 2^32`.  Inside a half-range window all wrap-safe comparisons
agree with the linear order on keys. -/
def key (b w : Nat) : Nat := (w + u32 - b) % u32

/-- Identity of a timer node.  `periodic`, `sentinel` and `deleted` are the
three static timers of sched.c; `user n` is any caller-owned timer. -/
inductive TimerId where
  | periodic
  | sentinel
  | deleted
  | user (n : Nat)
deriving DecidableEq

/-- The scheduler state (`SchedStatus` plus the static timers' waketimes and
the current value of `timer_read_time()`).  The intrusive `next` pointers are
represented by the order of `list`; `wk` holds every timer's `waketime`. -/
structure Sched where
  wk : TimerId → Nat
  list : List TimerId
  li : TimerId
  now : Nat
  shutdown_status : Nat
  shutdown_reason : Nat
  tasks_status : Int
  tasks_busy : Int
  kicked : Bool

/-- Result of a timer-callback (`SF_DONE` / `SF_RESCHEDULE`). -/
inductive CbRes where
  | done
  | resch
deriving DecidableEq

/-- Result of `sched_add_timer`: normal completion, a `longjmp` shutdown with
the given reason string, or an out-of-list-bounds walk (null dereference). -/
inductive AddResult where
  | ok (st : Sched)
  | shutdown (reason : String)
  | crash

/-- Result of `sched_timer_dispatch`: normal completion carrying the returned
`next_waketime`, a shutdown transfer, or a null dereference. -/
inductive DispatchResult where
  | ok (st : Sched) (next : Nat)
  | shutdown (reason : String)
  | crash

/-- The scan loop of `insert_timer` in sched.c.  Starting at the head of the
given suffix (`pos`), it repeatedly advances and breaks at the first node
whose waketime `w` is before; the new timer is spliced in just before that
node.  Walking past the end of the list is a null dereference, modelled by
`none`. -/
def insertAux (wk : TimerId → Nat) (w : Nat) (t : TimerId) : List TimerId → Option (List TimerId)
  | [] => none
  | [_] => none
  | p :: q :: rest =>
    if timer_is_before w (wk q) then some (p :: t :: q :: rest)
    else (insertAux wk w t (q :: rest)).map (p :: ·)

/-- Split a list at the first occurrence of node `i`: returns the elements
strictly before `i` and the suffix starting at `i`.  Models resolving the
`last_insert` hint pointer to a position on the list. -/
def suffixFrom (i : TimerId) : List TimerId → Option (List TimerId × List TimerId)
  | [] => none
  | x :: xs =>
    if x = i then some ([], x :: xs)
    else (suffixFrom i xs).map (fun pr => (x :: pr.1, pr.2))

/-- `sched_add_timer` from sched.c.  If the new waketime is before the head's,
the timer is made the next timer to run by splicing through the `deleted`
pseudo-timer and the hardware is kicked; a waketime already in the past first
attempts `try_shutdown("Timer too close")`, which transfers control only when
no shutdown is latched.  Otherwise the timer is inserted by scanning from the
head of the list. -/
def sched_add_timer (t : TimerId) (st : Sched) : AddResult :=
  match st.list with
  | [] => .crash
  | h :: rest =>
    let w := st.wk t
    if timer_is_before w (st.wk h) then
      if timer_is_before w st.now ∧ st.shutdown_status = 0 then
        .shutdown "Timer too close"
      else
        .ok { st with wk := Function.update st.wk .deleted w,
                      list := .deleted :: t :: (if h = .deleted then rest else h :: rest),
                      kicked := true }
    else
      match insertAux st.wk w t (h :: rest) with
      | none => .crash
      | some l2 => .ok { st with list := l2 }

/-- The insertion path of `sched_add_timer` as the specification describes it
(§4.2 step 2): the walk starts from the `last_insert` hint, or from the head
when the hint's waketime is already after the new timer's.  Written from the
spec's words, for comparison with the source's `sched_add_timer`. -/
def sched_add_timer_spec (t : TimerId) (st : Sched) : AddResult :=
  match st.list with
  | [] => .crash
  | h :: rest =>
    let w := st.wk t
    if timer_is_before w (st.wk h) then
      if timer_is_before w st.now ∧ st.shutdown_status = 0 then
        .shutdown "Timer too close"
      else
        .ok { st with wk := Function.update st.wk .deleted w,
                      list := .deleted :: t :: (if h = .deleted then rest else h :: rest),
                      kicked := true }
    else
      let startPos := if timer_is_before w (st.wk st.li) then h else st.li
      let inserted : Option (List TimerId) :=
        if startPos = h then insertAux st.wk w t (h :: rest)
        else
          match suffixFrom startPos (h :: rest) with
          | none => none
          | some pr => (insertAux st.wk w t pr.2).map (pr.1 ++ ·)
      match inserted with
      | none => .crash
      | some l2 => .ok { st with list := l2 }

/-- The predecessor scan of `sched_del_timer`'s else-branch: walk from the
head while `pos->next` is non-null and unlink the first node equal to the
target.  The head itself is never matched (that case is handled separately). -/
def delScan (t : TimerId) : List TimerId → List TimerId
  | [] => []
  | [p] => [p]
  | p :: q :: rest => if q = t then p :: rest else p :: delScan t (q :: rest)

/-- `sched_del_timer` from sched.c.  Deleting the head replaces it in place by
the `deleted` pseudo-timer carrying the head's waketime and successor;
otherwise the predecessor is found and the node unlinked (silently tolerating
absent nodes).  `last_insert` is reset to the periodic timer if it pointed at
the deleted node. -/
def sched_del_timer (t : TimerId) (st : Sched) : Sched :=
  let st1 :=
    match st.list with
    | [] => st
    | h :: rest =>
      if h = t then
        { st with wk := Function.update st.wk .deleted (st.wk h),
                  list := .deleted :: rest }
      else
        { st with list := delScan t (h :: rest) }
  if st1.li = t then { st1 with li := .periodic } else st1

/-- `sched_timer_reset` from sched.c: drop all user timers, leaving
`deleted → periodic → sentinel` with `deleted` carrying the periodic timer's
waketime, reset `last_insert` to periodic and kick the hardware timer. -/
def sched_timer_reset (st : Sched) : Sched :=
  { st with wk := Function.update st.wk .deleted (st.wk .periodic),
            list := [.deleted, .periodic, .sentinel],
            li := .periodic,
            kicked := true }

/-- `sched_timer_dispatch` from sched.c.  Invokes the head timer's callback
exactly once and fixes up the list.  The three static timers' callbacks
(`periodic_event`, `sentinel_event`, `deleted_event`) are modelled faithfully;
an arbitrary user callback is modelled by its observable effect: its result
`res` and the waketime `wcb` it leaves in its own timer.  `tfu` is
`timer_from_us(100000)`, the 100 ms periodic increment. -/
def sched_timer_dispatch (tfu : Nat) (res : CbRes) (wcb : Nat) (st : Sched) : DispatchResult :=
  match st.list with
  | [] => .crash
  | h :: rest =>
    if h = .sentinel then .shutdown "sentinel timer called"
    else
      let cb : Sched × Nat × CbRes :=
        if h = .periodic then
          let u := (st.wk .periodic + tfu) % u32
          ({ st with wk := Function.update (Function.update st.wk .periodic u) .sentinel
                            ((u + half32) % u32),
                     tasks_status := 0 }, u, .resch)
        else if h = .deleted then (st, st.wk .deleted, .done)
        else ({ st with wk := Function.update st.wk h wcb }, wcb, res)
      match cb with
      | (st1, upd, r) =>
        match r, rest with
        | _, [] => .crash
        | .done, nh :: _ =>
          .ok { st1 with list := rest, li := if st1.li = h then nh else st1.li } (st1.wk nh)
        | .resch, nh :: _ =>
          if timer_is_before upd (st1.wk nh) then
            .ok { st1 with list := h :: rest } upd
          else
            let pos := if timer_is_before upd (st1.wk st1.li) then nh else st1.li
            let inserted : Option (List TimerId) :=
              if pos = h then (insertAux st1.wk upd h (h :: rest)).map (List.drop 1)
              else
                match suffixFrom pos rest with
                | none => none
                | some pr => (insertAux st1.wk upd h pr.2).map (pr.1 ++ ·)
            match inserted with
            | none => .crash
            | some l2 => .ok { st1 with list := l2, li := h } (st1.wk nh)

/-- `run_shutdown` from sched.c: latch the reason only when no shutdown was in
progress, mark shutting-down, reset the timers, run the shutdown chain
(external, no scheduler state), and mark shut down. -/
def run_shutdown (reason : Nat) (st : Sched) : Sched :=
  let st1 := if st.shutdown_status = 0 then { st with shutdown_reason := reason } else st
  let st2 := { st1 with shutdown_status := 2 }
  let st3 := sched_timer_reset st2
  { st3 with shutdown_status := 1 }

/-- `sched_clear_shutdown` from sched.c: clearing while not shut down itself
shuts down; clearing while still shutting down (status 2) is ignored;
otherwise the status is cleared. -/
def sched_clear_shutdown (st : Sched) : Except String Sched :=
  if st.shutdown_status = 0 then .error "Shutdown cleared when not shutdown"
  else if st.shutdown_status = 2 then .ok st
  else .ok { st with shutdown_status := 0 }

/-- `sched_wake_tasks` from sched.c: promote `tasks_status` to
`TS_REQUESTED` (0). -/
def sched_wake_tasks (st : Sched) : Sched := { st with tasks_status := 0 }

/-- `sched_check_set_tasks_busy` from sched.c: report busy while the
remembered `tasks_busy` is at least `TS_REQUESTED`; otherwise sample
`tasks_status` into `tasks_busy` and report not busy. -/
def sched_check_set_tasks_busy (st : Sched) : Bool × Sched :=
  if 0 ≤ st.tasks_busy then (true, st)
  else (false, { st with tasks_busy := st.tasks_status })

/-- The writes the task loop and wake signalling perform on the two task-state
bytes between two calls of `sched_check_set_tasks_busy`:
`sched_wake_tasks` (status := REQUESTED), the idle transition of `run_tasks`
(status := busy := IDLE under the IRQ lock), and the start of a task pass
(status := RUNNING). -/
inductive TaskEv where
  | wake
  | goIdle
  | startRun
deriving DecidableEq

/-- Effect of one task-loop event on the scheduler state. -/
def taskEvApply (e : TaskEv) (st : Sched) : Sched :=
  match e with
  | .wake => { st with tasks_status := 0 }
  | .goIdle => { st with tasks_status := -1, tasks_busy := -1 }
  | .startRun => { st with tasks_status := 1 }

/-- Run a sequence of task-loop events. -/
def taskEvRun (evs : List TaskEv) (st : Sched) : Sched :=
  evs.foldl (fun s e => taskEvApply e s) st

/-- All waketimes of the given nodes are 32-bit values lying in the half-range
window based at `b`. -/
def Windowed (b : Nat) (wk : TimerId → Nat) (l : List TimerId) : Prop :=
  ∀ x ∈ l, wk x < u32 ∧ key b (wk x) < half32

/-- The nodes are sorted by their window keys (ties allowed, as produced by
the deleted pseudo-head and by insertions of equal waketimes). -/
def SortedK (b : Nat) (wk : TimerId → Nat) (l : List TimerId) : Prop :=
  l.Pairwise (fun x y => key b (wk x) ≤ key b (wk y))

/-- Structural well-formedness of the timer list: `body` is the list without
the trailing sentinel.  No node is linked twice, the body is windowed and
sorted, the sentinel's waketime is anchored half a range above the periodic
timer's, and the deleted pseudo-timer occurs at most at the head. -/
def ListCore (b : Nat) (wk : TimerId → Nat) (body : List TimerId) : Prop :=
  (body ++ [TimerId.sentinel]).Nodup ∧
  Windowed b wk body ∧
  SortedK b wk body ∧
  wk .sentinel = (wk .periodic + half32) % u32 ∧
  (TimerId.deleted ∈ body → body.head? = some TimerId.deleted)

/-- The scheduler's timer-list invariant, relative to a window base `b`:
the list is non-empty, ends at the sentinel, is well formed, contains the
periodic timer, and `last_insert` references a live non-sentinel,
non-deleted node (the periodic timer in particular is always live). -/
def SchedInv (b : Nat) (st : Sched) : Prop :=
  b < u32 ∧
  ∃ body, st.list = body ++ [TimerId.sentinel] ∧
    ListCore b st.wk body ∧
    body ≠ [] ∧
    TimerId.periodic ∈ body ∧
    st.li ∈ body ∧
    st.li ≠ TimerId.deleted

/-! ## Concrete states used by witnesses and counterexamples -/

/-- A concrete waketime assignment: periodic at 1000, sentinel anchored half a
range above it, and a few user timers. -/
def baseWk : TimerId → Nat
  | .periodic => 1000
  | .sentinel => 2147484648
  | .deleted => 1000
  | .user 0 => 1500
  | .user 1 => 900
  | .user _ => 2000

/-- A concrete well-formed scheduler state: the boot list
`periodic → sentinel`. -/
def W0 : Sched :=
  { wk := baseWk, list := [.periodic, .sentinel], li := .periodic, now := 1000,
    shutdown_status := 0, shutdown_reason := 0, tasks_status := 0,
    tasks_busy := -1, kicked := false }

/-- Waketimes for the C6 counterexample: periodic at 0 and the sentinel at
exactly 2^31, satisfying the sentinel anchor relation. -/
def wkC6 : TimerId → Nat
  | .periodic => 0
  | .sentinel => 2147483648
  | _ => 0

/-- Waketimes for the C4 counterexample, exercising the wrap-around of the
32-bit tick space. -/
def wkC4 : TimerId → Nat
  | .user 0 => 0
  | .user 1 => 536870912
  | .user 2 => 1610612736
  | .periodic => 3221225472
  | .sentinel => 1073741824
  | _ => 0

/-- A state whose timer list is pairwise sorted under `timer_is_before`, ends
with the periodic and sentinel timers in the required anchor relation, and
whose `last_insert` hint points at the periodic timer. -/
def WC4 : Sched :=
  { wk := wkC4, list := [.user 0, .user 2, .periodic, .sentinel],
    li := .periodic, now := 0, shutdown_status := 0, shutdown_reason := 0,
    tasks_status := 0, tasks_busy := 0, kicked := false }

/-- A concrete well-formed scheduler state whose head is a user timer:
the list `user 1 → periodic → sentinel`. -/
def WC2 : Sched :=
  { wk := baseWk, list := [.user 1, .periodic, .sentinel], li := .periodic, now := 800,
    shutdown_status := 0, shutdown_reason := 0, tasks_status := 0,
    tasks_busy := -1, kicked := false }

/-! ## Arithmetic bridge between the wrap-safe comparison and window keys -/

theorem tib_true_iff_key (b a c : Nat) (hb : b < u32) (ha : a < u32) (hc : c < u32)
    (hka : key b a < half32) (hkc : key b c < half32) :
    timer_is_before a c = true ↔ key b a < key b c := by
  simp only [timer_is_before, key, u32, half32, decide_eq_true_eq] at *
  omega

theorem tib_false_iff_key (b a c : Nat) (hb : b < u32) (ha : a < u32) (hc : c < u32)
    (hka : key b a < half32) (hkc : key b c < half32) :
    timer_is_before a c = false ↔ key b c ≤ key b a := by
  rw [← Bool.not_eq_true, tib_true_iff_key b a c hb ha hc hka hkc]
  omega

theorem tib_sent_true (b p w : Nat) (hb : b < u32) (hp : p < u32) (hw : w < u32)
    (hkp : key b p < half32) (hkw : key b w < half32) (hle : key b p ≤ key b w) :
    timer_is_before w ((p + half32) % u32) = true := by
  simp only [timer_is_before, key, u32, half32, decide_eq_true_eq] at *
  omega

theorem tib_or_sent (w p : Nat) (hw : w < u32) (hp : p < u32) :
    timer_is_before w p = true ∨ timer_is_before w ((p + half32) % u32) = true := by
  have h32 : u32 = 4294967296 := rfl
  have h31 : half32 = 2147483648 := rfl
  simp only [timer_is_before, h32, h31, decide_eq_true_eq] at hw hp ⊢
  omega

/-! ## Lemmas about the insertion scan -/

theorem insertAux_isSome_iff (wk : TimerId → Nat) (w : Nat) (t : TimerId) :
    ∀ (l : List TimerId) (p : TimerId),
      (insertAux wk w t (p :: l)).isSome ↔ ∃ x ∈ l, timer_is_before w (wk x) = true := by
  intro l
  induction l with
  | nil => intro p; simp [insertAux]
  | cons q r ih =>
    intro p
    by_cases h : timer_is_before w (wk q) = true
    · simp [insertAux, h]
    · simp only [insertAux, h, Bool.false_eq_true, if_false, List.mem_cons]
      cases hrec : insertAux wk w t (q :: r) with
      | none => simpa [hrec, h] using (ih q).symm.not.mpr (by simp [hrec])
      | some l2 =>
        simp only [hrec, Option.map_some', Option.isSome_some, true_iff]
        have := (ih q).mp (by simp [hrec])
        obtain ⟨x, hx, hxt⟩ := this
        exact ⟨x, Or.inr hx, hxt⟩

theorem insertAux_take_drop (wk : TimerId → Nat) (w : Nat) (t : TimerId) :
    ∀ (l : List TimerId) (p : TimerId),
      (∃ x ∈ l, timer_is_before w (wk x) = true) →
      insertAux wk w t (p :: l) =
        some (p :: (l.takeWhile (fun x => !timer_is_before w (wk x)) ++
                    t :: l.dropWhile (fun x => !timer_is_before w (wk x)))) := by
  intro l
  induction l with
  | nil => intro p h; simp at h
  | cons q r ih =>
    intro p h
    by_cases hq : timer_is_before w (wk q) = true
    · simp [insertAux, hq, List.takeWhile, List.dropWhile]
    · have hr : ∃ x ∈ r, timer_is_before w (wk x) = true := by
        obtain ⟨x, hx, hxt⟩ := h
        rcases List.mem_cons.mp hx with rfl | hx2
        · exact absurd hxt hq
        · exact ⟨x, hx2, hxt⟩
      simp [insertAux, hq, ih q hr, List.takeWhile, List.dropWhile]

theorem insert_scan (b : Nat) (wk : TimerId → Nat) (w : Nat) (t : TimerId)
    (hb : b < u32) (hw : w < u32) (hkw : key b w < half32)
    (hanchor : wk .sentinel = (wk .periodic + half32) % u32)
    (hpw : wk .periodic < u32) (hpk : key b (wk .periodic) < half32) :
    ∀ (sb : List TimerId) (s0 : TimerId),
      Windowed b wk sb →
      (key b (wk .periodic) ≤ key b w ∨ TimerId.periodic ∈ sb) →
      ∃ u vb, sb = u ++ vb ∧
        insertAux wk w t (s0 :: sb ++ [TimerId.sentinel]) =
          some (s0 :: u ++ t :: (vb ++ [TimerId.sentinel])) ∧
        (∀ x ∈ u, timer_is_before w (wk x) = false) ∧
        (∀ y, vb.head? = some y → timer_is_before w (wk y) = true) := by
  intro sb
  induction sb with
  | nil =>
    intro s0 _ hper
    have hple : key b (wk .periodic) ≤ key b w := by
      rcases hper with h | h
      · exact h
      · simp at h
    have hsent : timer_is_before w (wk TimerId.sentinel) = true := by
      rw [hanchor]
      exact tib_sent_true b (wk .periodic) w hb hpw hw hpk hkw hple
    exact ⟨[], [], rfl, by simp [insertAux, hsent], by simp, by simp⟩
  | cons q r ih =>
    intro s0 hwin hper
    by_cases hq : timer_is_before w (wk q) = true
    · refine ⟨[], q :: r, rfl, ?_, by simp, ?_⟩
      · simp [insertAux, hq]
      · intro y hy
        simp only [List.head?_cons, Option.some.injEq] at hy
        exact hy ▸ hq
    · have hwq := hwin q (List.mem_cons_self q r)
      have hper2 : key b (wk .periodic) ≤ key b w ∨ TimerId.periodic ∈ r := by
        rcases hper with h | h
        · exact Or.inl h
        · rcases List.mem_cons.mp h with rfl | h2
          · exact Or.inl ((tib_false_iff_key b w (wk .periodic) hb hw hwq.1 hkw hwq.2).mp
              (by simpa using hq))
          · exact Or.inr h2
      have hwin2 : Windowed b wk r := fun x hx => hwin x (List.mem_cons_of_mem q hx)
      obtain ⟨u2, vb2, heq, hins, hu2, hv2⟩ := ih q hwin2 hper2
      refine ⟨q :: u2, vb2, by simp [heq], ?_, ?_, hv2⟩
      · have : insertAux wk w t (s0 :: (q :: r) ++ [TimerId.sentinel]) =
            (insertAux wk w t (q :: r ++ [TimerId.sentinel])).map (s0 :: ·) := by
          simp [insertAux, hq]
        rw [this, hins]
        simp
      · intro x hx
        rcases List.mem_cons.mp hx with rfl | hx2
        · simpa using hq
        · exact hu2 x hx2

/-! ## C7: run_shutdown latches only the first reason -/

/-- C7: `run_shutdown(reason)` stores `reason` into `shutdown_reason` exactly
when `shutdown_status` is 0 at entry; whenever it is nonzero at entry the
reason is left unchanged, so the reason reported is always the first one
latched.  (The status always ends at 1.) -/
theorem run_shutdown_latches_first_reason (reason : Nat) (st : Sched) :
    (run_shutdown reason st).shutdown_reason =
      (if st.shutdown_status = 0 then reason else st.shutdown_reason) ∧
    (run_shutdown reason st).shutdown_status = 1 := by
  by_cases h : st.shutdown_status = 0 <;>
    simp [run_shutdown, sched_timer_reset, h]

/-! ## C8: sched_clear_shutdown three-way case split -/

/-- C8: `sched_clear_shutdown` is a three-way case split on
`shutdown_status`: 0 triggers shutdown with reason "Shutdown cleared when not
shutdown"; 2 returns with all state unchanged; 1 clears the status to 0. -/
theorem sched_clear_shutdown_cases (st : Sched) :
    (st.shutdown_status = 0 →
      sched_clear_shutdown st = .error "Shutdown cleared when not shutdown") ∧
    (st.shutdown_status = 2 → sched_clear_shutdown st = .ok st) ∧
    (st.shutdown_status = 1 →
      sched_clear_shutdown st = .ok { st with shutdown_status := 0 }) := by
  refine ⟨fun h => ?_, fun h => ?_, fun h => ?_⟩ <;>
    simp [sched_clear_shutdown, h]

/-- Witness for C8: clearing from status 1 yields status 0. -/
theorem sched_clear_shutdown_cases_witness :
    sched_clear_shutdown { W0 with shutdown_status := 1 } =
      .ok { { W0 with shutdown_status := 1 } with shutdown_status := 0 } :=
  (sched_clear_shutdown_cases { W0 with shutdown_status := 1 }).2.2 rfl

/-! ## C9: sched_check_set_tasks_busy -/

/-- Helper: only the idle transition writes `tasks_busy`, so running the task
loop events leaves `tasks_busy` at -1 if any idle transition occurred and
unchanged otherwise. -/
theorem taskEvRun_busy (evs : List TaskEv) :
    ∀ st : Sched, (taskEvRun evs st).tasks_busy =
      if TaskEv.goIdle ∈ evs then -1 else st.tasks_busy := by
  induction evs with
  | nil => intro st; simp [taskEvRun]
  | cons e r ih =>
    intro st
    have hstep : taskEvRun (e :: r) st = taskEvRun r (taskEvApply e st) := rfl
    rw [hstep, ih]
    cases e <;> by_cases hg : TaskEv.goIdle ∈ r <;> simp [taskEvApply, hg]

/-- C9 counterexample: in a reachable state with `tasks_busy = 0` (sampled
`REQUESTED` by a previous call) and `tasks_status = 1` (`RUNNING`), the call
returns true and leaves `tasks_busy` at 0, different from `tasks_status`:
the function does not sample `tasks_status` into `tasks_busy` on every call,
and it compares `tasks_busy` against the constant `TS_REQUESTED`, not against
the current `tasks_status`. -/
theorem tasks_busy_true_no_sample :
    (sched_check_set_tasks_busy { W0 with tasks_busy := 0, tasks_status := 1 }).1 = true ∧
    (sched_check_set_tasks_busy
      { W0 with tasks_busy := 0, tasks_status := 1 }).2.tasks_busy = 0 ∧
    ({ W0 with tasks_busy := 0, tasks_status := 1 } : Sched).tasks_status = 1 := by
  refine ⟨rfl, rfl, rfl⟩

/-- C9 (amended): after a call that returned false (and therefore sampled
`tasks_status` into `tasks_busy`), a second call returns true exactly when the
task loop neither was idle at the first call's sample nor performed an idle
transition in between; sampling happens only on calls that return false. -/
theorem tasks_busy_between_calls (st : Sched) (evs : List TaskEv)
    (h : st.tasks_busy < 0) :
    ((sched_check_set_tasks_busy
        (taskEvRun evs (sched_check_set_tasks_busy st).2)).1 = true) ↔
      (TaskEv.goIdle ∉ evs ∧ 0 ≤ st.tasks_status) := by
  have h1 : (sched_check_set_tasks_busy st).2.tasks_busy = st.tasks_status := by
    simp [sched_check_set_tasks_busy, not_le.mpr h]
  have h2 : (taskEvRun evs (sched_check_set_tasks_busy st).2).tasks_busy =
      if TaskEv.goIdle ∈ evs then -1 else st.tasks_status := by
    rw [taskEvRun_busy, h1]
  have hfst : ∀ s : Sched, ((sched_check_set_tasks_busy s).1 = true ↔ 0 ≤ s.tasks_busy) := by
    intro s
    by_cases hs : 0 ≤ s.tasks_busy <;> simp [sched_check_set_tasks_busy, hs]
  rw [hfst, h2]
  by_cases hg : TaskEv.goIdle ∈ evs <;> simp [hg]

/-- Witness for C9: a concrete first call from a freshly-idle state followed
by no idle transition reports busy. -/
theorem tasks_busy_between_calls_witness :
    (sched_check_set_tasks_busy
        (taskEvRun [] (sched_check_set_tasks_busy
          { W0 with tasks_busy := -1, tasks_status := 0 }).2)).1 = true :=
  (tasks_busy_between_calls { W0 with tasks_busy := -1, tasks_status := 0 } []
      (by decide)).mpr ⟨by decide, by decide⟩

/-! ## C10: the deleted pseudo-timer never links to itself -/

/-- C10: when `sched_add_timer` displaces a head that is already the deleted
pseudo-timer, the new timer's successor is taken from `deleted_timer.next`
rather than the head itself, so `deleted` never links to itself and occurs
exactly once on the list; the same holds across head deletions. -/
theorem deleted_head_no_self_link (st : Sched) (n : Nat) :
    (∀ rest, st.list = .deleted :: rest → .deleted ∉ rest →
      timer_is_before (st.wk (.user n)) (st.wk .deleted) = true →
      match sched_add_timer (.user n) st with
      | .ok st2 => st2.list = .deleted :: .user n :: rest ∧
          st2.list.count .deleted = 1
      | .shutdown r => r = "Timer too close"
      | .crash => False) ∧
    (∀ rest, st.list = .user n :: rest → .deleted ∉ st.list →
      (sched_del_timer (.user n) st).list = .deleted :: rest ∧
      (sched_del_timer (.user n) st).list.count .deleted = 1) := by
  constructor
  · intro rest hl hnd htib
    by_cases hc : timer_is_before (st.wk (.user n)) st.now = true ∧ st.shutdown_status = 0
    · simp [sched_add_timer, hl, htib, hc]
    · have hadd : sched_add_timer (.user n) st =
          .ok { st with wk := Function.update st.wk .deleted (st.wk (.user n)),
                        list := .deleted :: .user n :: rest,
                        kicked := true } := by
        simp [sched_add_timer, hl, htib, hc]
      rw [hadd]
      exact ⟨rfl, by simp [List.count_cons, List.count_eq_zero.mpr hnd]⟩
  · intro rest hl hnd
    have hne : TimerId.deleted ∉ rest := fun hx => hnd (hl ▸ List.mem_cons_of_mem _ hx)
    have hlist : (sched_del_timer (.user n) st).list = .deleted :: rest := by
      simp only [sched_del_timer, hl, if_true]
      by_cases hli : st.li = TimerId.user n <;> simp [hli]
    refine ⟨hlist, ?_⟩
    rw [hlist]
    simp [List.count_cons, List.count_eq_zero.mpr hne]

/-- Witness for C10: a concrete displacement onto a deleted head and a
concrete head deletion. -/
theorem deleted_head_no_self_link_witness :
    (match sched_add_timer (.user 1)
        { W0 with list := [.deleted, .periodic, .sentinel], shutdown_status := 1 } with
     | .ok st2 => st2.list = .deleted :: .user 1 :: [.periodic, .sentinel] ∧
         st2.list.count .deleted = 1
     | .shutdown r => r = "Timer too close"
     | .crash => False) :=
  (deleted_head_no_self_link
      { W0 with list := [.deleted, .periodic, .sentinel], shutdown_status := 1 } 1).1
    [.periodic, .sentinel] rfl (by decide) (by decide)

/-! ## C6: termination of the insertion scan -/

/-- C6 counterexample: on the sorted list `[periodic, sentinel]` with the
required anchor `sentinel.waketime = periodic.waketime + 2^31`, the insertion
scan for waketime `w = 2^31` starting at the periodic head compares only the
sentinel, does not break, and runs past the end of the list (a null
dereference in C): the scan does not terminate for every waketime value. -/
theorem insert_scan_runs_past_end :
    timer_is_before (wkC6 .periodic) (wkC6 .sentinel) = true ∧
    wkC6 .sentinel = (wkC6 .periodic + half32) % u32 ∧
    insertAux wkC6 half32 (.user 0) [.periodic, .sentinel] = none := by
  refine ⟨by decide, by decide, ?_⟩
  simp [insertAux, wkC6]
  decide

/-- C6 (amended): the insertion scan terminates (before running past the end)
for every waketime whenever the scan starts strictly before the periodic
timer — so that the periodic timer's waketime is among those compared — and,
when the scan starts at the periodic timer itself, whenever the waketime is
not before the periodic timer's.  Both situations cover every call site of
`insert_timer`. -/
theorem insert_scan_terminates (wk : TimerId → Nat) (w : Nat) (t : TimerId)
    (hanchor : wk .sentinel = (wk .periodic + half32) % u32)
    (hp : wk .periodic < u32) (hw : w < u32) :
    (∀ (s0 : TimerId) (l0 : List TimerId),
      (insertAux wk w t (s0 :: l0 ++ [.periodic, .sentinel])).isSome) ∧
    (timer_is_before w (wk .periodic) = false →
      (insertAux wk w t [.periodic, .sentinel]).isSome) := by
  have hor := tib_or_sent w (wk .periodic) hw hp
  rw [← hanchor] at hor
  constructor
  · intro s0 l0
    rw [show s0 :: l0 ++ [TimerId.periodic, TimerId.sentinel] =
          s0 :: (l0 ++ [TimerId.periodic, TimerId.sentinel]) from rfl,
        insertAux_isSome_iff]
    rcases hor with h | h
    · exact ⟨.periodic, by simp, h⟩
    · exact ⟨.sentinel, by simp, h⟩
  · intro hnp
    rw [show [TimerId.periodic, TimerId.sentinel] =
          TimerId.periodic :: [TimerId.sentinel] from rfl,
        insertAux_isSome_iff]
    rcases hor with h | h
    · exact absurd h (by simp [hnp])
    · exact ⟨.sentinel, by simp, h⟩

/-- Witness for C6: a concrete scan starting at the periodic timer with a
waketime not before it terminates. -/
theorem insert_scan_terminates_witness :
    (insertAux wkC6 100 (.user 0) [.periodic, .sentinel]).isSome :=
  (insert_scan_terminates wkC6 100 (.user 0) (by decide) (by decide)
    (by decide)).2 (by decide)

/-! ## C3: the "Timer too close" path of sched_add_timer -/

/-- C3 counterexample: with a shutdown already in progress
(`shutdown_status = 2`), adding a timer whose waketime is before the head's
and also before `now()` does not trigger the "Timer too close" shutdown —
`sched_try_shutdown` is a no-op — and the head splice still happens, with the
hardware kicked. -/
theorem add_timer_too_close_not_shutdown :
    timer_is_before (({ W0 with shutdown_status := 2, now := 2000 } : Sched).wk (.user 1))
        (({ W0 with shutdown_status := 2, now := 2000 } : Sched).wk .periodic) = true ∧
    timer_is_before (({ W0 with shutdown_status := 2, now := 2000 } : Sched).wk (.user 1))
        ({ W0 with shutdown_status := 2, now := 2000 } : Sched).now = true ∧
    (match sched_add_timer (.user 1) { W0 with shutdown_status := 2, now := 2000 } with
     | .ok st2 => st2.list = [.deleted, .user 1, .periodic, .sentinel] ∧
         st2.kicked = true
     | _ => False) := by
  refine ⟨by decide, by decide, ?_⟩
  have hadd : sched_add_timer (.user 1) { W0 with shutdown_status := 2, now := 2000 } =
      .ok { ({ W0 with shutdown_status := 2, now := 2000 } : Sched) with
              wk := Function.update baseWk .deleted 900,
              list := [.deleted, .user 1, .periodic, .sentinel],
              kicked := true } := rfl
  rw [hadd]
  exact ⟨rfl, rfl⟩

/-- C3 (amended): when the new timer displaces the head, `sched_add_timer`
checks `timer_is_before(t.waketime, now())`; if that holds and no shutdown is
latched it triggers shutdown with reason "Timer too close"; in every other
case — including a too-close waketime while a shutdown is already latched —
it splices `t` in front of the old head via the deleted pseudo-timer (deleted
becomes the head carrying `t.waketime`, followed by `t`) and kicks the
hardware timer. -/
theorem add_timer_head_displacement (st : Sched) (t h : TimerId)
    (rest : List TimerId) (hl : st.list = h :: rest)
    (htib : timer_is_before (st.wk t) (st.wk h) = true) :
    (timer_is_before (st.wk t) st.now = true ∧ st.shutdown_status = 0 →
      sched_add_timer t st = .shutdown "Timer too close") ∧
    (¬(timer_is_before (st.wk t) st.now = true ∧ st.shutdown_status = 0) →
      sched_add_timer t st =
        .ok { st with wk := Function.update st.wk .deleted (st.wk t),
                      list := .deleted :: t :: (if h = .deleted then rest else h :: rest),
                      kicked := true }) := by
  constructor <;> intro hc <;> simp [sched_add_timer, hl, htib, hc]

/-- Witness for C3: a concrete past-deadline add with no shutdown latched
transfers to shutdown with reason "Timer too close". -/
theorem add_timer_head_displacement_witness :
    sched_add_timer (.user 1) { W0 with now := 2000 } = .shutdown "Timer too close" :=
  (add_timer_head_displacement { W0 with now := 2000 } (.user 1) .periodic
      [.sentinel] rfl (by decide)).1 ⟨by decide, rfl⟩

/-! ## C4: where the insertion walk of sched_add_timer starts -/

/-- C4 counterexample: on a pairwise-sorted list with a live `last_insert`
hint, the source's `sched_add_timer` (which always walks from the head)
places the new timer at a different position than the walk the claim
describes (starting from `last_insert` unless the hint's waketime is after
the new one).  The two resulting lists differ, so `sched_add_timer` does not
implement the claimed hint-guided walk. -/
theorem add_timer_ignores_hint :
    timer_is_before (WC4.wk (.user 0)) (WC4.wk (.user 2)) = true ∧
    timer_is_before (WC4.wk (.user 2)) (WC4.wk .periodic) = true ∧
    timer_is_before (WC4.wk .periodic) (WC4.wk .sentinel) = true ∧
    WC4.wk .sentinel = (WC4.wk .periodic + half32) % u32 ∧
    WC4.li ∈ WC4.list ∧
    timer_is_before (WC4.wk (.user 1)) (WC4.wk (.user 0)) = false ∧
    (match sched_add_timer (.user 1) WC4, sched_add_timer_spec (.user 1) WC4 with
     | .ok a, .ok b =>
         a.list = [.user 0, .user 1, .user 2, .periodic, .sentinel] ∧
         b.list = [.user 0, .user 2, .periodic, .user 1, .sentinel]
     | _, _ => False) := by
  refine ⟨by decide, by decide, by decide, by decide, by decide, by decide, ?_⟩
  have h1 : sched_add_timer (.user 1) WC4 =
      .ok { WC4 with list := [.user 0, .user 1, .user 2, .periodic, .sentinel] } := rfl
  have h2 : sched_add_timer_spec (.user 1) WC4 =
      .ok { WC4 with list := [.user 0, .user 2, .periodic, .user 1, .sentinel] } := rfl
  rw [h1, h2]
  exact ⟨rfl, rfl⟩

/-- C4 (amended): for a timer whose waketime is not before the head's,
`sched_add_timer` walks forward from the head of the list — `last_insert` is
not consulted by `sched_add_timer` at all (the hint is used only by the
dispatcher's re-insertion) — until finding the position `pos` whose successor
is the first node with `timer_is_before(t.waketime, pos.next.waketime)`, and
splices `t` in after `pos`, leaving `last_insert` unchanged. -/
theorem add_timer_walks_from_head (st : Sched) (t h : TimerId) (rest : List TimerId)
    (hl : st.list = h :: rest)
    (hno : timer_is_before (st.wk t) (st.wk h) = false)
    (hbrk : ∃ x ∈ rest, timer_is_before (st.wk t) (st.wk x) = true) :
    sched_add_timer t st =
      .ok { st with list :=
        h :: (rest.takeWhile (fun x => !timer_is_before (st.wk t) (st.wk x)) ++
              t :: rest.dropWhile (fun x => !timer_is_before (st.wk t) (st.wk x))) } ∧
    (∀ x ∈ rest.takeWhile (fun x => !timer_is_before (st.wk t) (st.wk x)),
       timer_is_before (st.wk t) (st.wk x) = false) ∧
    (∀ y, (rest.dropWhile (fun x => !timer_is_before (st.wk t) (st.wk x))).head? = some y →
       timer_is_before (st.wk t) (st.wk y) = true) := by
  refine ⟨?_, ?_, ?_⟩
  · simp [sched_add_timer, hl, hno, insertAux_take_drop st.wk (st.wk t) t rest h hbrk]
  · intro x hx
    have := List.mem_takeWhile_imp hx
    simpa using this
  · intro y hy
    have := List.head?_dropWhile_not
      (fun x => !timer_is_before (st.wk t) (st.wk x)) rest
    rw [hy] at this
    simpa using this

/-- Witness for C4 (amended): a concrete non-displacing add splices before
the sentinel after walking from the head. -/
theorem add_timer_walks_from_head_witness :
    sched_add_timer (.user 0) W0 =
      .ok { W0 with list :=
        .periodic :: ([.sentinel].takeWhile
            (fun x => !timer_is_before (W0.wk (.user 0)) (W0.wk x)) ++
          .user 0 :: [.sentinel].dropWhile
            (fun x => !timer_is_before (W0.wk (.user 0)) (W0.wk x))) } :=
  (add_timer_walks_from_head W0 (.user 0) .periodic [.sentinel] rfl (by decide)
    ⟨.sentinel, by decide, by decide⟩).1

/-! ## C5: add followed by del -/

/-- Helper: the predecessor scan of `sched_del_timer` removes the first
occurrence of the target from the tail of the list. -/
theorem delScan_eq_erase (t : TimerId) :
    ∀ (l : List TimerId) (h : TimerId), delScan t (h :: l) = h :: l.erase t := by
  intro l
  induction l with
  | nil => intro h; simp [delScan]
  | cons q r ih =>
    intro h
    by_cases hq : q = t
    · subst hq; simp [delScan]
    · rw [show delScan t (h :: q :: r) = h :: delScan t (q :: r) from by
          simp [delScan, hq]]
      rw [ih q, List.erase_cons_tail (by simpa using hq)]

/-- C5 counterexample: a head-displacing `add(t)` followed by `del(t)` does
not restore the timer list: the deleted pseudo-timer remains spliced in as
the head.  (Before: `[periodic, sentinel]`; after: `[deleted, periodic,
sentinel]`.) -/
theorem add_del_not_identity :
    match sched_add_timer (.user 1) { W0 with now := 900 } with
    | .ok st1 =>
        (sched_del_timer (.user 1) st1).list ≠ ({ W0 with now := 900 } : Sched).list ∧
        (sched_del_timer (.user 1) st1).list = [.deleted, .periodic, .sentinel]
    | _ => False := by
  have h1 : sched_add_timer (.user 1) { W0 with now := 900 } =
      .ok { ({ W0 with now := 900 } : Sched) with
              wk := Function.update baseWk .deleted 900,
              list := [.deleted, .user 1, .periodic, .sentinel],
              kicked := true } := rfl
  rw [h1]
  exact ⟨by decide, by decide⟩

/-- C5 (amended): for a fresh user timer that does not displace the head,
`add(t); del(t)` leaves the timer list identical to its pre-state and every
scheduler field other than `last_insert` unchanged.  (When `t` displaces the
head, the deleted pseudo-timer remains as the new head carrying `t`'s
waketime, so the list is not restored bit-for-bit.) -/
theorem add_del_round_trip (st : Sched) (n : Nat) (h : TimerId) (rest : List TimerId)
    (hl : st.list = h :: rest)
    (hno : timer_is_before (st.wk (.user n)) (st.wk h) = false)
    (hbrk : ∃ x ∈ rest, timer_is_before (st.wk (.user n)) (st.wk x) = true)
    (hfresh : TimerId.user n ∉ st.list) :
    match sched_add_timer (.user n) st with
    | .ok st1 =>
        (sched_del_timer (.user n) st1).list = st.list ∧
        (sched_del_timer (.user n) st1).wk = st.wk ∧
        (sched_del_timer (.user n) st1).now = st.now ∧
        (sched_del_timer (.user n) st1).shutdown_status = st.shutdown_status ∧
        (sched_del_timer (.user n) st1).shutdown_reason = st.shutdown_reason ∧
        (sched_del_timer (.user n) st1).tasks_status = st.tasks_status ∧
        (sched_del_timer (.user n) st1).tasks_busy = st.tasks_busy ∧
        (sched_del_timer (.user n) st1).kicked = st.kicked
    | _ => False := by
  have hadd := (add_timer_walks_from_head st (.user n) h rest hl hno hbrk).1
  have hhne : h ≠ TimerId.user n := by
    intro he
    exact hfresh (hl ▸ (he ▸ List.mem_cons_self h rest))
  have htnotin : TimerId.user n ∉
      rest.takeWhile (fun x => !timer_is_before (st.wk (.user n)) (st.wk x)) := by
    intro hx
    exact hfresh (hl ▸ List.mem_cons_of_mem h (List.takeWhile_subset _ hx))
  have hscan : delScan (.user n)
      (h :: (rest.takeWhile (fun x => !timer_is_before (st.wk (.user n)) (st.wk x)) ++
             .user n :: rest.dropWhile (fun x => !timer_is_before (st.wk (.user n)) (st.wk x))))
      = h :: rest := by
    rw [delScan_eq_erase, List.erase_append_right _ htnotin,
        List.erase_cons_head, List.takeWhile_append_dropWhile]
  rw [hadd]
  refine ⟨?_, ?_, ?_, ?_, ?_, ?_, ?_, ?_⟩ <;>
    by_cases hli : st.li = TimerId.user n <;>
    simp [sched_del_timer, hscan, hhne, hli, hl]

/-- Witness for C5 (amended): a concrete non-displacing add/del round trip
restores the boot list. -/
theorem add_del_round_trip_witness :
    match sched_add_timer (.user 0) W0 with
    | .ok st1 =>
        (sched_del_timer (.user 0) st1).list = W0.list ∧
        (sched_del_timer (.user 0) st1).wk = W0.wk ∧
        (sched_del_timer (.user 0) st1).now = W0.now ∧
        (sched_del_timer (.user 0) st1).shutdown_status = W0.shutdown_status ∧
        (sched_del_timer (.user 0) st1).shutdown_reason = W0.shutdown_reason ∧
        (sched_del_timer (.user 0) st1).tasks_status = W0.tasks_status ∧
        (sched_del_timer (.user 0) st1).tasks_busy = W0.tasks_busy ∧
        (sched_del_timer (.user 0) st1).kicked = W0.kicked
    | _ => False :=
  add_del_round_trip W0 0 .periodic [.sentinel] rfl (by decide)
    ⟨.sentinel, by decide, by decide⟩ (by decide)

/-! ## Machinery for the list invariant (C1, C2) -/

theorem pairwise_insert_middle {α : Type} {R : α → α → Prop} {l1 l2 : List α} {t : α}
    (hp : (l1 ++ l2).Pairwise R)
    (h1 : ∀ x ∈ l1, R x t) (h2 : ∀ y ∈ l2, R t y) :
    (l1 ++ t :: l2).Pairwise R := by
  rw [List.pairwise_append] at hp ⊢
  obtain ⟨hp1, hp2, hcross⟩ := hp
  refine ⟨hp1, ?_, ?_⟩
  · rw [List.pairwise_cons]
    exact ⟨h2, hp2⟩
  · intro x hx y hy
    rcases List.mem_cons.mp hy with rfl | hy2
    · exact h1 x hx
    · exact hcross x hx y hy2

theorem suffixFrom_append_spec (i : TimerId) :
    ∀ l : List TimerId, i ∈ l →
      ∃ p s2, l = p ++ i :: s2 ∧ i ∉ p ∧
        ∀ tail2 : List TimerId, suffixFrom i (l ++ tail2) = some (p, i :: (s2 ++ tail2)) := by
  intro l
  induction l with
  | nil => intro hm; simp at hm
  | cons x xs ih =>
    intro hm
    by_cases hx : x = i
    · subst hx
      exact ⟨[], xs, rfl, by simp, fun tail2 => by simp [suffixFrom]⟩
    · have hm2 : i ∈ xs := by
        rcases List.mem_cons.mp hm with h | h
        · exact absurd h.symm hx
        · exact h
      obtain ⟨p, s2, hl, hnp, hsf⟩ := ih hm2
      refine ⟨x :: p, s2, by simp [hl], ?_, fun tail2 => ?_⟩
      · intro hc
        rcases List.mem_cons.mp hc with h | h
        · exact hx h.symm
        · exact hnp h
      · simp [suffixFrom, hx, hsf tail2]

/-- The central insertion lemma: inserting a fresh windowed timer `t` with
waketime `w` into a well-formed list `pre ++ s0 :: sb ++ [sentinel]`, with the
scan starting at `s0` and the scan guard `¬ timer_is_before w s0.waketime`
holding, succeeds and yields a well-formed list with `t` spliced in at the
sorted position after `s0`. -/
theorem insert_preserves (b : Nat) (wk : TimerId → Nat) (pre sb : List TimerId)
    (s0 t : TimerId) (w : Nat)
    (hb : b < u32)
    (hnd : ((pre ++ s0 :: sb) ++ [TimerId.sentinel]).Nodup)
    (hwin : Windowed b wk (pre ++ s0 :: sb))
    (hsort : SortedK b wk (pre ++ s0 :: sb))
    (hanchor : wk .sentinel = (wk .periodic + half32) % u32)
    (hpw : wk .periodic < u32) (hpk : key b (wk .periodic) < half32)
    (hw : w < u32) (hkw : key b w < half32)
    (hwt : wk t = w)
    (hfresh : t ∉ pre ++ s0 :: sb) (hts : t ≠ TimerId.sentinel)
    (hguard : timer_is_before w (wk s0) = false)
    (hper : key b (wk .periodic) ≤ key b w ∨ TimerId.periodic ∈ s0 :: sb) :
    ∃ u vb, sb = u ++ vb ∧
      insertAux wk w t (s0 :: sb ++ [TimerId.sentinel]) =
        some (s0 :: u ++ t :: (vb ++ [TimerId.sentinel])) ∧
      ((pre ++ s0 :: u ++ t :: vb) ++ [TimerId.sentinel]).Nodup ∧
      Windowed b wk (pre ++ s0 :: u ++ t :: vb) ∧
      SortedK b wk (pre ++ s0 :: u ++ t :: vb) ∧
      (∀ x, x ∈ pre ++ s0 :: u ++ t :: vb ↔ x ∈ pre ++ s0 :: sb ∨ x = t) := by
  have hwin_s0 : wk s0 < u32 ∧ key b (wk s0) < half32 := hwin s0 (by simp)
  have hks0 : key b (wk s0) ≤ key b w :=
    (tib_false_iff_key b w (wk s0) hb hw hwin_s0.1 hkw hwin_s0.2).mp hguard
  have hwin_sb : Windowed b wk sb := fun x hx => hwin x (by simp [hx])
  have hper2 : key b (wk .periodic) ≤ key b w ∨ TimerId.periodic ∈ sb := by
    rcases hper with hk | hm
    · exact Or.inl hk
    · rcases List.mem_cons.mp hm with hps | hm2
      · exact Or.inl (hps ▸ hks0)
      · exact Or.inr hm2
  obtain ⟨u, vb, hsplit, hins, hu, hv⟩ :=
    insert_scan b wk w t hb hw hkw hanchor hpw hpk sb s0 hwin_sb hper2
  subst hsplit
  have hmem : ∀ x : TimerId,
      x ∈ pre ++ s0 :: u ++ t :: vb ↔ x ∈ pre ++ s0 :: (u ++ vb) ∨ x = t := by
    intro x
    simp only [List.mem_append, List.mem_cons]
    tauto
  refine ⟨u, vb, rfl, hins, ?_, ?_, ?_, hmem⟩
  · -- Nodup
    have hperm : List.Perm ((pre ++ s0 :: u ++ t :: vb) ++ [TimerId.sentinel])
        (t :: ((pre ++ s0 :: (u ++ vb)) ++ [TimerId.sentinel])) := by
      have h1 : (pre ++ s0 :: u ++ t :: vb) ++ [TimerId.sentinel] =
          (pre ++ s0 :: u) ++ t :: (vb ++ [TimerId.sentinel]) := by simp
      have h2 : (pre ++ s0 :: (u ++ vb)) ++ [TimerId.sentinel] =
          (pre ++ s0 :: u) ++ (vb ++ [TimerId.sentinel]) := by simp
      rw [h1, h2]
      exact List.perm_middle
    rw [hperm.nodup_iff, List.nodup_cons]
    constructor
    · intro hmem2
      rcases List.mem_append.mp hmem2 with h | h
      · exact hfresh h
      · exact hts (by simpa using h)
    · exact hnd
  · -- Windowed
    intro x hx
    rcases (hmem x).mp hx with hold | hxt
    · exact hwin x hold
    · exact hxt ▸ (hwt ▸ ⟨hw, hkw⟩)
  · -- SortedK
    have hre : pre ++ s0 :: u ++ t :: vb = (pre ++ s0 :: u) ++ t :: vb := by simp
    have hre2 : (pre ++ s0 :: u) ++ vb = pre ++ s0 :: (u ++ vb) := by simp
    rw [SortedK, hre]
    apply pairwise_insert_middle
    · rw [hre2]; exact hsort
    · -- everything up to the splice point is at or below w
      intro x hx
      rw [hwt]
      simp only [List.mem_append, List.mem_cons] at hx
      have hbelow : x ∈ pre ∨ x = s0 ∨ x ∈ u := by tauto
      rcases hbelow with hp | hs | hu2
      · have hcross := (List.pairwise_append.mp hsort).2.2
        have hxs0 : key b (wk x) ≤ key b (wk s0) := hcross x hp s0 (by simp)
        exact le_trans hxs0 hks0
      · exact hs ▸ hks0
      · have hwinx := hwin x (by simp [hu2])
        exact (tib_false_iff_key b w (wk x) hb hw hwinx.1 hkw hwinx.2).mp (hu x hu2)
    · -- everything after the splice point is at or above w
      intro y hy
      rw [hwt]
      cases vb with
      | nil => simp at hy
      | cons vh vt =>
        have hwinvh := hwin vh (by simp)
        have hlt : key b w < key b (wk vh) :=
          (tib_true_iff_key b w (wk vh) hb hw hwinvh.1 hkw hwinvh.2).mp
            (hv vh (by simp))
        rcases List.mem_cons.mp hy with rfl | hy2
        · exact le_of_lt hlt
        · have hsub : List.Sublist (vh :: vt) (pre ++ s0 :: (u ++ vh :: vt)) := by
            have h1 : List.Sublist (vh :: vt) (u ++ vh :: vt) :=
              List.sublist_append_right u _
            have h2 : List.Sublist (u ++ vh :: vt) (s0 :: (u ++ vh :: vt)) :=
              List.sublist_cons_self s0 _
            have h3 : List.Sublist (s0 :: (u ++ vh :: vt))
                (pre ++ s0 :: (u ++ vh :: vt)) :=
              List.sublist_append_right pre _
            exact (h1.trans h2).trans h3
          have hpvb : (vh :: vt).Pairwise
              (fun x y => key b (wk x) ≤ key b (wk y)) :=
            List.Pairwise.sublist hsub hsort
          have hhead := (List.pairwise_cons.mp hpvb).1 y hy2
          exact le_of_lt (lt_of_lt_of_le hlt hhead)

theorem reset_preserves_inv (b : Nat) (st : Sched) (h : SchedInv b st) :
    SchedInv b (sched_timer_reset st) := by
  obtain ⟨hb, body, hlst, ⟨hnd, hwin, hsort, hanchor, hdelpos⟩, hbne, hper, hli, hlid⟩ := h
  have hperwin := hwin .periodic hper
  have hupd_del : Function.update st.wk TimerId.deleted (st.wk .periodic)
      TimerId.deleted = st.wk .periodic := Function.update_same _ _ _
  have hupd_per : Function.update st.wk TimerId.deleted (st.wk .periodic)
      TimerId.periodic = st.wk .periodic :=
    Function.update_noteq (by simp) _ _
  have hupd_sent : Function.update st.wk TimerId.deleted (st.wk .periodic)
      TimerId.sentinel = st.wk .sentinel :=
    Function.update_noteq (by simp) _ _
  refine ⟨hb, [TimerId.deleted, TimerId.periodic], rfl,
    ⟨by decide, ?_, ?_, ?_, fun _ => rfl⟩, by simp, by simp,
    by simp [sched_timer_reset], by simp [sched_timer_reset]⟩
  · intro x hx
    rcases List.mem_cons.mp hx with rfl | hx2
    · rw [sched_timer_reset]
      simpa [hupd_del] using hperwin
    · have hx3 : x = TimerId.periodic := by simpa using hx2
      subst hx3
      rw [sched_timer_reset]
      simpa [hupd_per] using hperwin
  · rw [SortedK, sched_timer_reset]
    simp [List.pairwise_cons, hupd_del, hupd_per]
  · rw [sched_timer_reset]
    simp only [hupd_sent, hupd_per]
    exact hanchor

theorem del_preserves_inv (b : Nat) (st : Sched) (n : Nat) (h : SchedInv b st) :
    SchedInv b (sched_del_timer (.user n) st) := by
  obtain ⟨hb, body, hlst, ⟨hnd, hwin, hsort, hanchor, hdelpos⟩, hbne, hper, hli, hlid⟩ := h
  cases body with
  | nil => exact absurd rfl hbne
  | cons h0 btail =>
  have hlst2 : st.list = h0 :: (btail ++ [TimerId.sentinel]) := by simpa using hlst
  have hndc : h0 ∉ btail ++ [TimerId.sentinel] ∧ (btail ++ [TimerId.sentinel]).Nodup := by
    have h2 := hnd
    rw [show (h0 :: btail) ++ [TimerId.sentinel] =
          h0 :: (btail ++ [TimerId.sentinel]) from rfl, List.nodup_cons] at h2
    exact h2
  by_cases hhead : h0 = TimerId.user n
  · -- deleting the current head
    subst hhead
    have hdelnb : TimerId.deleted ∉ btail := by
      intro hc
      have := hdelpos (List.mem_cons_of_mem _ hc)
      simp at this
    have hwinh := hwin (.user n) (by simp)
    have hLC : ListCore b (Function.update st.wk .deleted (st.wk (.user n)))
        (TimerId.deleted :: btail) := by
      refine ⟨?_, ?_, ?_, ?_, fun _ => rfl⟩
      · rw [show (TimerId.deleted :: btail) ++ [TimerId.sentinel] =
              TimerId.deleted :: (btail ++ [TimerId.sentinel]) from rfl, List.nodup_cons]
        refine ⟨?_, hndc.2⟩
        intro hc
        rcases List.mem_append.mp hc with h2 | h2
        · exact hdelnb h2
        · simp at h2
      · intro x hx
        rcases List.mem_cons.mp hx with rfl | hx2
        · rw [Function.update_same]
          exact hwinh
        · rw [Function.update_noteq (fun he => hdelnb (by rwa [he] at hx2))]
          exact hwin x (by simp [hx2])
      · rw [SortedK, List.pairwise_cons]
        constructor
        · intro y hy
          rw [Function.update_same,
              Function.update_noteq (fun he => hdelnb (by rwa [he] at hy))]
          exact (List.pairwise_cons.mp hsort).1 y hy
        · exact (List.pairwise_cons.mp hsort).2.imp_of_mem (fun ha hb2 hr => by
            rw [Function.update_noteq (fun he => hdelnb (by rwa [he] at ha)),
                Function.update_noteq (fun he => hdelnb (by rwa [he] at hb2))]
            exact hr)
      · rw [Function.update_noteq (by simp), Function.update_noteq (by simp)]
        exact hanchor
    have hpertail : TimerId.periodic ∈ btail := by
      rcases List.mem_cons.mp hper with h2 | h2
      · simp at h2
      · exact h2
    have hresult : sched_del_timer (.user n) st =
        (if st.li = TimerId.user n then
          { st with wk := Function.update st.wk .deleted (st.wk (.user n)),
                    list := .deleted :: (btail ++ [TimerId.sentinel]), li := .periodic }
        else
          { st with wk := Function.update st.wk .deleted (st.wk (.user n)),
                    list := .deleted :: (btail ++ [TimerId.sentinel]) }) := by
      by_cases hli2 : st.li = TimerId.user n <;>
        simp [sched_del_timer, hlst2, hli2]
    rw [hresult]
    by_cases hli2 : st.li = TimerId.user n
    · rw [if_pos hli2]
      exact ⟨hb, .deleted :: btail, by simp, hLC, by simp,
        List.mem_cons_of_mem _ hpertail, List.mem_cons_of_mem _ hpertail, by simp⟩
    · rw [if_neg hli2]
      have hli3 : st.li ∈ btail := by
        rcases List.mem_cons.mp hli with h2 | h2
        · exact absurd h2 hli2
        · exact h2
      exact ⟨hb, .deleted :: btail, by simp, hLC, by simp,
        List.mem_cons_of_mem _ hpertail, List.mem_cons_of_mem _ hli3, hlid⟩
  · -- deleting from the tail (or deleting an absent timer)
    have hsplit : (btail ++ [TimerId.sentinel]).erase (.user n) =
        btail.erase (.user n) ++ [TimerId.sentinel] := by
      by_cases hmem : TimerId.user n ∈ btail
      · exact List.erase_append_left _ hmem
      · rw [List.erase_append_right _ hmem, List.erase_of_not_mem (by simp),
            List.erase_of_not_mem hmem]
    have hscan : delScan (.user n) (h0 :: (btail ++ [TimerId.sentinel])) =
        h0 :: (btail.erase (.user n) ++ [TimerId.sentinel]) := by
      rw [delScan_eq_erase, hsplit]
    have hsubb : List.Sublist (h0 :: btail.erase (.user n)) (h0 :: btail) :=
      (List.erase_sublist _ _).cons₂ h0
    have hLC : ListCore b st.wk (h0 :: btail.erase (.user n)) := by
      refine ⟨?_, ?_, ?_, hanchor, ?_⟩
      · exact List.Nodup.sublist (hsubb.append_right _) hnd
      · exact fun x hx => hwin x (hsubb.subset hx)
      · exact List.Pairwise.sublist hsubb hsort
      · intro hdc
        have := hdelpos (hsubb.subset hdc)
        rw [List.head?_cons] at this ⊢
        exact this
    have hpernew : TimerId.periodic ∈ h0 :: btail.erase (.user n) := by
      rcases List.mem_cons.mp hper with h2 | h2
      · exact h2 ▸ List.mem_cons_self _ _
      · exact List.mem_cons_of_mem _
          ((List.mem_erase_of_ne (by simp)).mpr h2)
    have hresult : sched_del_timer (.user n) st =
        (if st.li = TimerId.user n then
          { st with list := h0 :: (btail.erase (.user n) ++ [TimerId.sentinel]),
                    li := .periodic }
        else
          { st with list := h0 :: (btail.erase (.user n) ++ [TimerId.sentinel]) }) := by
      by_cases hli2 : st.li = TimerId.user n <;>
        simp [sched_del_timer, hlst2, hhead, hscan, hli2]
    rw [hresult]
    by_cases hli2 : st.li = TimerId.user n
    · rw [if_pos hli2]
      exact ⟨hb, h0 :: btail.erase (.user n), by simp, hLC, by simp, hpernew,
        hpernew, by simp⟩
    · rw [if_neg hli2]
      have hli3 : st.li ∈ h0 :: btail.erase (.user n) := by
        rcases List.mem_cons.mp hli with h2 | h2
        · exact h2 ▸ List.mem_cons_self _ _
        · exact List.mem_cons_of_mem _ ((List.mem_erase_of_ne hli2).mpr h2)
      exact ⟨hb, h0 :: btail.erase (.user n), by simp, hLC, by simp, hpernew,
        hli3, hlid⟩

theorem add_preserves_inv (b : Nat) (st : Sched) (n : Nat)
    (h : SchedInv b st) (hw32 : st.wk (.user n) < u32)
    (hkw : key b (st.wk (.user n)) < half32) (hfresh : TimerId.user n ∉ st.list) :
    match sched_add_timer (.user n) st with
    | .ok st2 => SchedInv b st2
    | _ => True := by
  obtain ⟨hb, body, hlst, ⟨hnd, hwin, hsort, hanchor, hdelpos⟩, hbne, hper, hli, hlid⟩ := h
  cases body with
  | nil => exact absurd rfl hbne
  | cons h0 btail =>
  have hlst2 : st.list = h0 :: (btail ++ [TimerId.sentinel]) := by simpa using hlst
  have hwinper := hwin .periodic hper
  have hfreshb : TimerId.user n ∉ h0 :: btail := by
    intro hc
    exact hfresh (hlst ▸ List.mem_append_left _ hc)
  by_cases hdisp : timer_is_before (st.wk (.user n)) (st.wk h0) = true
  · -- head displacement
    by_cases hclose : timer_is_before (st.wk (.user n)) st.now = true ∧
        st.shutdown_status = 0
    · simp [sched_add_timer, hlst2, hdisp, hclose]
    · have hwinh := hwin h0 (by simp)
      have hklt : key b (st.wk (.user n)) < key b (st.wk h0) :=
        (tib_true_iff_key b _ _ hb hw32 hwinh.1 hkw hwinh.2).mp hdisp
      have hled : ∀ y ∈ btail, key b (st.wk (.user n)) ≤ key b (st.wk y) := by
        intro y hy
        exact le_of_lt (lt_of_lt_of_le hklt ((List.pairwise_cons.mp hsort).1 y hy))
      by_cases hh0 : h0 = TimerId.deleted
      · -- the old head is already the deleted pseudo-timer
        subst hh0
        have hdelnb : TimerId.deleted ∉ btail := by
          have h2 := hnd
          rw [show (TimerId.deleted :: btail) ++ [TimerId.sentinel] =
                TimerId.deleted :: (btail ++ [TimerId.sentinel]) from rfl,
              List.nodup_cons] at h2
          intro hc
          exact h2.1 (List.mem_append_left _ hc)
        have hndtail : (btail ++ [TimerId.sentinel]).Nodup := by
          have h2 := hnd
          rw [show (TimerId.deleted :: btail) ++ [TimerId.sentinel] =
                TimerId.deleted :: (btail ++ [TimerId.sentinel]) from rfl,
              List.nodup_cons] at h2
          exact h2.2
        have hresult : sched_add_timer (.user n) st =
            .ok { st with wk := Function.update st.wk .deleted (st.wk (.user n)),
                          list := .deleted :: .user n :: (btail ++ [TimerId.sentinel]),
                          kicked := true } := by
          simp [sched_add_timer, hlst2, hdisp, hclose]
        rw [hresult]
        have hupdnb : ∀ x ∈ btail,
            Function.update st.wk TimerId.deleted (st.wk (.user n)) x = st.wk x :=
          fun x hx => Function.update_noteq (fun he => hdelnb (by rwa [he] at hx)) _ _
        have hupdu : Function.update st.wk TimerId.deleted (st.wk (.user n))
            (TimerId.user n) = st.wk (.user n) := Function.update_noteq (by simp) _ _
        refine ⟨hb, .deleted :: .user n :: btail, by simp, ⟨?_, ?_, ?_, ?_, fun _ => rfl⟩,
          by simp, ?_, ?_, hlid⟩
        · rw [show (TimerId.deleted :: TimerId.user n :: btail) ++ [TimerId.sentinel] =
              TimerId.deleted :: TimerId.user n :: (btail ++ [TimerId.sentinel]) from rfl,
            List.nodup_cons, List.nodup_cons]
          refine ⟨?_, ?_, hndtail⟩
          · intro hc
            rcases List.mem_cons.mp hc with h2 | h2
            · simp at h2
            · rcases List.mem_append.mp h2 with h3 | h3
              · exact hdelnb h3
              · simp at h3
          · intro hc
            rcases List.mem_append.mp hc with h3 | h3
            · exact hfreshb (List.mem_cons_of_mem _ h3)
            · simp at h3
        · intro x hx
          dsimp only
          rcases List.mem_cons.mp hx with rfl | hx2
          · rw [Function.update_same]
            exact ⟨hw32, hkw⟩
          rcases List.mem_cons.mp hx2 with rfl | hx3
          · rw [hupdu]
            exact ⟨hw32, hkw⟩
          · rw [hupdnb x hx3]
            exact hwin x (by simp [hx3])
        · rw [SortedK]
          dsimp only
          rw [List.pairwise_cons]
          constructor
          · intro y hy
            rw [Function.update_same]
            rcases List.mem_cons.mp hy with rfl | hy2
            · rw [hupdu]
            · rw [hupdnb y hy2]
              exact hled y hy2
          rw [List.pairwise_cons]
          constructor
          · intro y hy
            rw [hupdu, hupdnb y hy]
            exact hled y hy
          · exact ((List.pairwise_cons.mp hsort).2).imp_of_mem (fun ha hb2 hr => by
              rw [hupdnb _ ha, hupdnb _ hb2]
              exact hr)
        · dsimp only
          rw [Function.update_noteq (by simp), Function.update_noteq (by simp)]
          exact hanchor
        · -- periodic stays on the list
          rcases List.mem_cons.mp hper with h2 | h2
          · simp at h2
          · exact List.mem_cons_of_mem _ (List.mem_cons_of_mem _ h2)
        · -- last_insert stays on the list
          rcases List.mem_cons.mp hli with h2 | h2
          · exact absurd h2 hlid
          · exact List.mem_cons_of_mem _ (List.mem_cons_of_mem _ h2)
      · -- the old head is a live timer
        have hdelnb : TimerId.deleted ∉ h0 :: btail := by
          intro hc
          have := hdelpos hc
          rw [List.head?_cons] at this
          exact hh0 (by simpa using this)
        have hresult : sched_add_timer (.user n) st =
            .ok { st with wk := Function.update st.wk .deleted (st.wk (.user n)),
                          list := .deleted :: .user n :: (h0 :: (btail ++ [TimerId.sentinel])),
                          kicked := true } := by
          simp [sched_add_timer, hlst2, hdisp, hclose, hh0]
        rw [hresult]
        have hupdnb : ∀ x ∈ h0 :: btail,
            Function.update st.wk TimerId.deleted (st.wk (.user n)) x = st.wk x :=
          fun x hx => Function.update_noteq (fun he => hdelnb (by rwa [he] at hx)) _ _
        have hupdu : Function.update st.wk TimerId.deleted (st.wk (.user n))
            (TimerId.user n) = st.wk (.user n) := Function.update_noteq (by simp) _ _
        have hledc : ∀ y ∈ h0 :: btail, key b (st.wk (.user n)) ≤ key b (st.wk y) := by
          intro y hy
          rcases List.mem_cons.mp hy with rfl | hy2
          · exact le_of_lt hklt
          · exact hled y hy2
        refine ⟨hb, .deleted :: .user n :: h0 :: btail, by simp,
          ⟨?_, ?_, ?_, ?_, fun _ => rfl⟩, by simp, ?_, ?_, hlid⟩
        · rw [show (TimerId.deleted :: TimerId.user n :: h0 :: btail) ++ [TimerId.sentinel] =
              TimerId.deleted :: TimerId.user n :: ((h0 :: btail) ++ [TimerId.sentinel]) from rfl,
            List.nodup_cons, List.nodup_cons]
          refine ⟨?_, ?_, hnd⟩
          · intro hc
            rcases List.mem_cons.mp hc with h2 | h2
            · simp at h2
            · rcases List.mem_append.mp h2 with h3 | h3
              · exact hdelnb h3
              · simp at h3
          · intro hc
            rcases List.mem_append.mp hc with h3 | h3
            · exact hfreshb h3
            · simp at h3
        · intro x hx
          dsimp only
          rcases List.mem_cons.mp hx with rfl | hx2
          · rw [Function.update_same]
            exact ⟨hw32, hkw⟩
          rcases List.mem_cons.mp hx2 with rfl | hx3
          · rw [hupdu]
            exact ⟨hw32, hkw⟩
          · rw [hupdnb x hx3]
            exact hwin x hx3
        · rw [SortedK]
          dsimp only
          rw [List.pairwise_cons]
          constructor
          · intro y hy
            rw [Function.update_same]
            rcases List.mem_cons.mp hy with rfl | hy2
            · rw [hupdu]
            · rw [hupdnb y hy2]
              exact hledc y hy2
          rw [List.pairwise_cons]
          constructor
          · intro y hy
            rw [hupdu, hupdnb y hy]
            exact hledc y hy
          · exact hsort.imp_of_mem (fun ha hb2 hr => by
              rw [hupdnb _ ha, hupdnb _ hb2]
              exact hr)
        · dsimp only
          rw [Function.update_noteq (by simp), Function.update_noteq (by simp)]
          exact hanchor
        · exact List.mem_cons_of_mem _ (List.mem_cons_of_mem _ hper)
        · exact List.mem_cons_of_mem _ (List.mem_cons_of_mem _ hli)
  · -- sorted insertion from the head
    rw [Bool.not_eq_true] at hdisp
    obtain ⟨u, vb, hsplit, hins, hnd2, hwin2, hsort2, hmem2⟩ :=
      insert_preserves b st.wk [] btail h0 (.user n) (st.wk (.user n)) hb
        (by simpa using hnd) (by simpa using hwin) (by simpa using hsort)
        hanchor hwinper.1 hwinper.2 hw32 hkw rfl
        (by simpa using hfreshb) (by simp) hdisp (Or.inr hper)
    simp only [List.nil_append] at hnd2 hwin2 hsort2 hmem2
    have hins2 : insertAux st.wk (st.wk (.user n)) (.user n)
        (h0 :: (btail ++ [TimerId.sentinel])) =
        some (h0 :: u ++ TimerId.user n :: (vb ++ [TimerId.sentinel])) := hins
    have hresult : sched_add_timer (.user n) st =
        .ok { st with list := h0 :: u ++ .user n :: (vb ++ [TimerId.sentinel]) } := by
      simp [sched_add_timer, hlst2, hdisp, hins2]
    rw [hresult]
    refine ⟨hb, h0 :: u ++ .user n :: vb, by simp, ⟨hnd2, hwin2, hsort2, hanchor, ?_⟩,
      by simp, ?_, ?_, hlid⟩
    · intro hdc
      have hdold : TimerId.deleted ∈ h0 :: btail := by
        rcases (hmem2 _).mp hdc with h2 | h2
        · exact h2
        · simp at h2
      have h3 := hdelpos hdold
      simp only [List.head?_cons] at h3
      simp only [List.cons_append, List.head?_cons]
      exact h3
    · exact (hmem2 _).mpr (Or.inl hper)
    · exact (hmem2 _).mpr (Or.inl hli)

/-- The dispatcher's re-insertion path: after popping the head `h0`, the
scan starts at a live node `pos` of the remaining body whose waketime is not
after the updated waketime, and splices `h0` back in at its sorted place. -/
theorem dispatch_move_insert (b : Nat) (wk1 : TimerId → Nat) (h0 pos : TimerId)
    (upd : Nat) (btail : List TimerId)
    (hb : b < u32)
    (hndt : (btail ++ [TimerId.sentinel]).Nodup)
    (hwin : Windowed b wk1 btail)
    (hsort : SortedK b wk1 btail)
    (hanchor : wk1 .sentinel = (wk1 .periodic + half32) % u32)
    (hperw : wk1 .periodic < u32) (hperk : key b (wk1 .periodic) < half32)
    (hupd32 : upd < u32) (hupdk : key b upd < half32)
    (hwt : wk1 h0 = upd)
    (hh0 : h0 ∉ btail) (hh0s : h0 ≠ TimerId.sentinel) (hh0d : h0 ≠ TimerId.deleted)
    (hdelb : TimerId.deleted ∉ btail)
    (hperm : TimerId.periodic ∈ btail ∨ h0 = TimerId.periodic)
    (hpos : pos ∈ btail) (hguard : timer_is_before upd (wk1 pos) = false) :
    ∃ p u vb, btail = p ++ pos :: (u ++ vb) ∧
      suffixFrom pos (btail ++ [TimerId.sentinel]) =
        some (p, pos :: ((u ++ vb) ++ [TimerId.sentinel])) ∧
      insertAux wk1 upd h0 (pos :: ((u ++ vb) ++ [TimerId.sentinel])) =
        some (pos :: u ++ h0 :: (vb ++ [TimerId.sentinel])) ∧
      ListCore b wk1 (p ++ pos :: u ++ h0 :: vb) ∧
      TimerId.periodic ∈ p ++ pos :: u ++ h0 :: vb ∧
      h0 ∈ p ++ pos :: u ++ h0 :: vb := by
  obtain ⟨p, s2, hbt, hnp, hsf⟩ := suffixFrom_append_spec pos btail hpos
  subst hbt
  have hwinpos : wk1 pos < u32 ∧ key b (wk1 pos) < half32 := hwin pos (by simp)
  have hkpos : key b (wk1 pos) ≤ key b upd :=
    (tib_false_iff_key b upd (wk1 pos) hb hupd32 hwinpos.1 hupdk hwinpos.2).mp hguard
  have hperarg : key b (wk1 .periodic) ≤ key b upd ∨ TimerId.periodic ∈ pos :: s2 := by
    rcases hperm with hm | hm
    · rcases List.mem_append.mp hm with h2 | h2
      · have hcross := (List.pairwise_append.mp hsort).2.2
        have h3 : key b (wk1 .periodic) ≤ key b (wk1 pos) :=
          hcross _ h2 pos (by simp)
        exact Or.inl (le_trans h3 hkpos)
      · exact Or.inr h2
    · rw [← hm, hwt]
      exact Or.inl (le_refl _)
  obtain ⟨u, vb, hsplit, hins, hnd2, hwin2, hsort2, hmem2⟩ :=
    insert_preserves b wk1 p s2 pos h0 upd hb hndt hwin hsort hanchor hperw hperk
      hupd32 hupdk hwt hh0 hh0s hguard hperarg
  subst hsplit
  have hins2 : insertAux wk1 upd h0 (pos :: ((u ++ vb) ++ [TimerId.sentinel])) =
      some (pos :: u ++ h0 :: (vb ++ [TimerId.sentinel])) := hins
  have hsf2 : suffixFrom pos ((p ++ pos :: (u ++ vb)) ++ [TimerId.sentinel]) =
      some (p, pos :: ((u ++ vb) ++ [TimerId.sentinel])) := by
    have h3 := hsf [TimerId.sentinel]
    rw [show (p ++ pos :: (u ++ vb)) ++ [TimerId.sentinel] =
        p ++ pos :: (u ++ vb) ++ [TimerId.sentinel] from by simp] at h3 ⊢
    exact h3
  refine ⟨p, u, vb, rfl, hsf2, hins2, ⟨hnd2, hwin2, hsort2, hanchor, ?_⟩, ?_, ?_⟩
  · intro hdc
    rcases (hmem2 _).mp hdc with h2 | h2
    · exact absurd (by simpa using h2) hdelb
    · exact absurd h2.symm hh0d
  · refine (hmem2 _).mpr ?_
    rcases hperm with hm | hm
    · exact Or.inl (by simpa using hm)
    · exact Or.inr hm.symm
  · exact (hmem2 _).mpr (Or.inr rfl)

theorem tib_irrefl (a : Nat) : timer_is_before a a = false := by
  have h32 : u32 = 4294967296 := rfl
  have h31 : half32 = 2147483648 := rfl
  simp only [timer_is_before, h32, h31, decide_eq_false_iff_not]
  omega

theorem transfer_win (b : Nat) (wk wk1 : TimerId → Nat) (l : List TimerId)
    (heq : ∀ x ∈ l, wk1 x = wk x) (hw : Windowed b wk l) : Windowed b wk1 l := by
  intro x hx
  rw [heq x hx]
  exact hw x hx

theorem transfer_sort (b : Nat) (wk wk1 : TimerId → Nat) (l : List TimerId)
    (heq : ∀ x ∈ l, wk1 x = wk x) (hs : SortedK b wk l) : SortedK b wk1 l :=
  hs.imp_of_mem (fun ha hb2 hr => by rw [heq _ ha, heq _ hb2]; exact hr)

theorem dispatch_preserves_inv (b : Nat) (st : Sched) (tfu : Nat) (res : CbRes) (wcb : Nat)
    (h : SchedInv b st) (hw32 : wcb < u32) (hkw : key b wcb < half32)
    (htfu : key b ((st.wk .periodic + tfu) % u32) < half32) :
    match sched_timer_dispatch tfu res wcb st with
    | .ok st2 _ => SchedInv b st2
    | _ => True := by
  obtain ⟨hb, body, hlst, ⟨hnd, hwin, hsort, hanchor, hdelpos⟩, hbne, hper, hli, hlid⟩ := h
  cases body with
  | nil => exact absurd rfl hbne
  | cons h0 btail =>
  have hlst2 : st.list = h0 :: (btail ++ [TimerId.sentinel]) := by simpa using hlst
  have hndc : h0 ∉ btail ++ [TimerId.sentinel] ∧ (btail ++ [TimerId.sentinel]).Nodup := by
    have h2 := hnd
    rw [show (h0 :: btail) ++ [TimerId.sentinel] =
          h0 :: (btail ++ [TimerId.sentinel]) from rfl, List.nodup_cons] at h2
    exact h2
  have hh0nb : h0 ∉ btail := fun hc => hndc.1 (List.mem_append_left _ hc)
  have hwinh := hwin h0 (by simp)
  cases h0 with
  | sentinel =>
    simp [sched_timer_dispatch, hlst2]
  | deleted =>
    have hpert : TimerId.periodic ∈ btail := by
      rcases List.mem_cons.mp hper with h2 | h2
      · simp at h2
      · exact h2
    cases btail with
    | nil => simp at hpert
    | cons nb0 nb2 =>
    have hlst3 : st.list = TimerId.deleted :: nb0 :: (nb2 ++ [TimerId.sentinel]) := by
      simpa using hlst
    simp [sched_timer_dispatch, hlst3, hlid]
    refine ⟨hb, nb0 :: nb2, by simp, ⟨hndc.2, ?_, ?_, hanchor, ?_⟩, by simp, hpert, ?_, hlid⟩
    · exact fun x hx => hwin x (List.mem_cons_of_mem _ hx)
    · exact (List.pairwise_cons.mp hsort).2
    · intro hdc
      exact absurd hdc hh0nb
    · rcases List.mem_cons.mp hli with h2 | h2
      · exact absurd h2 hlid
      · exact h2
  | periodic =>
    obtain ⟨pu, hpu⟩ : ∃ x, (st.wk TimerId.periodic + tfu) % u32 = x := ⟨_, rfl⟩
    rw [hpu] at htfu
    have hpu32 : pu < u32 := by
      rw [← hpu]
      exact Nat.mod_lt _ (by decide)
    have hsentb : TimerId.sentinel ∉ btail := fun hc =>
      (List.nodup_append.mp hndc.2).2.2 hc (by simp)
    obtain ⟨wk1, hwk1⟩ : ∃ f, Function.update (Function.update st.wk TimerId.periodic pu)
        TimerId.sentinel ((pu + half32) % u32) = f := ⟨_, rfl⟩
    have hps : TimerId.periodic ≠ TimerId.sentinel := by simp
    have hwk1p : wk1 TimerId.periodic = pu := by
      rw [← hwk1, Function.update_noteq hps, Function.update_same]
    have hwk1s : wk1 TimerId.sentinel = (pu + half32) % u32 := by
      rw [← hwk1]
      exact Function.update_same _ _ _
    have hwk1t : ∀ x ∈ btail, wk1 x = st.wk x := by
      intro x hx
      have hxs : x ≠ TimerId.sentinel := fun he => hsentb (by rwa [he] at hx)
      have hxp : x ≠ TimerId.periodic := fun he => hh0nb (by rwa [he] at hx)
      rw [← hwk1, Function.update_noteq hxs, Function.update_noteq hxp]
    have hanchor1 : wk1 TimerId.sentinel = (wk1 TimerId.periodic + half32) % u32 := by
      rw [hwk1s, hwk1p]
    have hperw1 : wk1 TimerId.periodic < u32 ∧ key b (wk1 TimerId.periodic) < half32 := by
      rw [hwk1p]
      exact ⟨hpu32, htfu⟩
    have hdelb : TimerId.deleted ∉ TimerId.periodic :: btail := by
      intro hc
      have h2 := hdelpos hc
      simp at h2
    cases btail with
    | nil =>
      have hlst3 : st.list = TimerId.periodic :: [TimerId.sentinel] := by simpa using hlst
      have hforce : timer_is_before pu ((pu + half32) % u32) = true :=
        tib_sent_true b pu pu hb hpu32 hpu32 htfu htfu (le_refl _)
      simp [sched_timer_dispatch, hlst3, hpu, hwk1, hwk1s, hforce]
      refine ⟨hb, [TimerId.periodic], by simp, ⟨by decide, ?_, ?_, hanchor1, by simp⟩,
        by simp, by simp, hli, hlid⟩
      · intro x hx
        dsimp only
        simp only [List.mem_singleton] at hx
        subst hx
        rw [hwk1p]
        exact ⟨hpu32, htfu⟩
      · exact List.pairwise_singleton _ _
    | cons nb0 nb2 =>
    have hlst3 : st.list = TimerId.periodic :: nb0 :: (nb2 ++ [TimerId.sentinel]) := by
      simpa using hlst
    have hnb0wk : wk1 nb0 = st.wk nb0 := hwk1t nb0 (by simp)
    have hwinT : Windowed b wk1 (nb0 :: nb2) :=
      transfer_win b st.wk _ _ hwk1t (fun x hx => hwin x (List.mem_cons_of_mem _ hx))
    have hsortT : SortedK b wk1 (nb0 :: nb2) :=
      transfer_sort b st.wk _ _ hwk1t (List.pairwise_cons.mp hsort).2
    have hdelbT : TimerId.deleted ∉ nb0 :: nb2 :=
      fun hc => hdelb (List.mem_cons_of_mem _ hc)
    have hwinnb0 := hwin nb0 (by simp)
    by_cases hstay : timer_is_before pu (st.wk nb0) = true
    · -- the refreshed periodic timer stays at the head
      simp [sched_timer_dispatch, hlst3, hpu, hwk1, hnb0wk, hstay]
      refine ⟨hb, TimerId.periodic :: nb0 :: nb2, by simp, ⟨hnd, ?_, ?_, hanchor1, ?_⟩,
        by simp, hper, hli, hlid⟩
      · intro x hx
        dsimp only
        rcases List.mem_cons.mp hx with rfl | hx2
        · rw [hwk1p]
          exact ⟨hpu32, htfu⟩
        · exact hwinT x hx2
      · rw [SortedK]
        dsimp only
        rw [List.pairwise_cons]
        refine ⟨?_, hsortT⟩
        intro y hy
        rw [hwk1p]
        have hltn : key b pu < key b (st.wk nb0) :=
          (tib_true_iff_key b pu (st.wk nb0) hb hpu32 hwinnb0.1 htfu hwinnb0.2).mp hstay
        rcases List.mem_cons.mp hy with rfl | hy2
        · rw [hnb0wk]
          exact le_of_lt hltn
        · rw [hwk1t y (List.mem_cons_of_mem _ hy2)]
          have h3 := (List.pairwise_cons.mp (List.pairwise_cons.mp hsort).2).1 y hy2
          exact le_of_lt (lt_of_lt_of_le hltn h3)
      · intro hdc
        exact absurd hdc hdelb
    · -- the refreshed periodic timer moves down the list
      rw [Bool.not_eq_true] at hstay
      have hguardn : timer_is_before pu (wk1 nb0) = false := by
        rw [hnb0wk]
        exact hstay
      by_cases hlih : st.li = TimerId.periodic
      · -- the hint points at the periodic timer itself: scan from it
        obtain ⟨u, vb, hsplit, hins, hnd2, hwin2, hsort2, hmem2⟩ :=
          insert_preserves b wk1 [] nb2 nb0 TimerId.periodic pu hb (by simpa using hndc.2)
            (by simpa using hwinT) (by simpa using hsortT) hanchor1 hperw1.1 hperw1.2
            hpu32 htfu hwk1p (by simpa using hh0nb) (by simp) hguardn
            (Or.inl (by rw [hwk1p]))
        simp only [List.nil_append] at hnd2 hwin2 hsort2 hmem2
        have hins2 : insertAux wk1 pu TimerId.periodic (nb0 :: (nb2 ++ [TimerId.sentinel])) =
            some (nb0 :: u ++ TimerId.periodic :: (vb ++ [TimerId.sentinel])) := hins
        simp [sched_timer_dispatch, hlst3, hpu, hwk1, hnb0wk, hstay, hlih, hwk1p,
          tib_irrefl, insertAux, hins2]
        refine ⟨hb, nb0 :: u ++ TimerId.periodic :: vb, by simp,
          ⟨hnd2, hwin2, hsort2, hanchor1, ?_⟩, by simp, ?_, ?_, by simp⟩
        · intro hdc
          rcases (hmem2 _).mp hdc with h2 | h2
          · exact absurd h2 hdelbT
          · simp at h2
        · exact (hmem2 _).mpr (Or.inr rfl)
        · exact (hmem2 _).mpr (Or.inr rfl)
      · have hlibt : st.li ∈ nb0 :: nb2 := by
          rcases List.mem_cons.mp hli with h2 | h2
          · exact absurd h2 hlih
          · exact h2
        have hliwk : wk1 st.li = st.wk st.li := hwk1t _ hlibt
        by_cases hgi : timer_is_before pu (st.wk st.li) = true
        · -- hint already past the new waketime: scan from the new head
          have hne0 : nb0 ≠ TimerId.periodic := by
            intro he
            exact hh0nb (by rw [← he]; exact List.mem_cons_self _ _)
          obtain ⟨p, u, vb, hbt2, hsf2, hins2, hLC, hperm2, hh0m⟩ :=
            dispatch_move_insert b wk1 TimerId.periodic nb0 pu (nb0 :: nb2) hb hndc.2
              hwinT hsortT hanchor1 hperw1.1 hperw1.2 hpu32 htfu hwk1p hh0nb
              (by simp) (by simp) hdelbT (Or.inr rfl) (by simp) hguardn
          have hsf3 : suffixFrom nb0 (nb0 :: (nb2 ++ [TimerId.sentinel])) =
              some (p, nb0 :: ((u ++ vb) ++ [TimerId.sentinel])) := hsf2
          have hins3 : insertAux wk1 pu TimerId.periodic
              (nb0 :: (u ++ (vb ++ [TimerId.sentinel]))) =
              some (nb0 :: u ++ TimerId.periodic :: (vb ++ [TimerId.sentinel])) := by
            rw [show nb0 :: (u ++ (vb ++ [TimerId.sentinel])) =
                nb0 :: ((u ++ vb) ++ [TimerId.sentinel]) from by simp]
            exact hins2
          simp [sched_timer_dispatch, hlst3, hpu, hwk1, hnb0wk, hstay, hliwk, hgi,
            hne0, hsf3, hins3]
          refine ⟨hb, p ++ nb0 :: u ++ TimerId.periodic :: vb, by simp, hLC,
            by simp, hperm2, hh0m, by simp⟩
        · rw [Bool.not_eq_true] at hgi
          have hguardli : timer_is_before pu (wk1 st.li) = false := by
            rw [hliwk]
            exact hgi
          obtain ⟨p, u, vb, hbt2, hsf2, hins2, hLC, hperm2, hh0m⟩ :=
            dispatch_move_insert b wk1 TimerId.periodic st.li pu (nb0 :: nb2) hb hndc.2
              hwinT hsortT hanchor1 hperw1.1 hperw1.2 hpu32 htfu hwk1p hh0nb
              (by simp) (by simp) hdelbT (Or.inr rfl) hlibt hguardli
          have hsf3 : suffixFrom st.li (nb0 :: (nb2 ++ [TimerId.sentinel])) =
              some (p, st.li :: ((u ++ vb) ++ [TimerId.sentinel])) := by
            have h4 := hsf2
            rw [show (nb0 :: nb2) ++ [TimerId.sentinel] =
                nb0 :: (nb2 ++ [TimerId.sentinel]) from rfl] at h4
            exact h4
          have hins3 : insertAux wk1 pu TimerId.periodic
              (st.li :: (u ++ (vb ++ [TimerId.sentinel]))) =
              some (st.li :: u ++ TimerId.periodic :: (vb ++ [TimerId.sentinel])) := by
            rw [show st.li :: (u ++ (vb ++ [TimerId.sentinel])) =
                st.li :: ((u ++ vb) ++ [TimerId.sentinel]) from by simp]
            exact hins2
          simp [sched_timer_dispatch, hlst3, hpu, hwk1, hnb0wk, hstay, hliwk, hgi,
            hlih, hsf3, hins3]
          refine ⟨hb, p ++ st.li :: u ++ TimerId.periodic :: vb, by simp, hLC,
            by simp, hperm2, hh0m, by simp⟩
  | user m =>
    have hpert : TimerId.periodic ∈ btail := by
      rcases List.mem_cons.mp hper with h2 | h2
      · simp at h2
      · exact h2
    have hdelb : TimerId.deleted ∉ TimerId.user m :: btail := by
      intro hc
      have h2 := hdelpos hc
      simp at h2
    cases btail with
    | nil => simp at hpert
    | cons nb0 nb2 =>
    have hlst3 : st.list = TimerId.user m :: nb0 :: (nb2 ++ [TimerId.sentinel]) := by
      simpa using hlst
    have hwk1t : ∀ x ∈ nb0 :: nb2,
        Function.update st.wk (TimerId.user m) wcb x = st.wk x := by
      intro x hx
      exact Function.update_noteq (fun he => hh0nb (by rwa [he] at hx)) _ _
    have hnb0wk : Function.update st.wk (TimerId.user m) wcb nb0 = st.wk nb0 :=
      hwk1t nb0 (by simp)
    have hwk1p : Function.update st.wk (TimerId.user m) wcb TimerId.periodic =
        st.wk .periodic := Function.update_noteq (by simp) _ _
    have hwk1s : Function.update st.wk (TimerId.user m) wcb TimerId.sentinel =
        st.wk .sentinel := Function.update_noteq (by simp) _ _
    have hwk1h : Function.update st.wk (TimerId.user m) wcb (TimerId.user m) = wcb :=
      Function.update_same _ _ _
    have hwinT : Windowed b (Function.update st.wk (TimerId.user m) wcb) (nb0 :: nb2) :=
      transfer_win b st.wk _ _ hwk1t (fun x hx => hwin x (List.mem_cons_of_mem _ hx))
    have hsortT : SortedK b (Function.update st.wk (TimerId.user m) wcb) (nb0 :: nb2) :=
      transfer_sort b st.wk _ _ hwk1t (List.pairwise_cons.mp hsort).2
    have hanchor1 : Function.update st.wk (TimerId.user m) wcb TimerId.sentinel =
        (Function.update st.wk (TimerId.user m) wcb TimerId.periodic + half32) % u32 := by
      rw [hwk1s, hwk1p]
      exact hanchor
    have hperw1 : Function.update st.wk (TimerId.user m) wcb TimerId.periodic < u32 ∧
        key b (Function.update st.wk (TimerId.user m) wcb TimerId.periodic) < half32 := by
      rw [hwk1p]
      exact hwin .periodic hper
    have hdelnbT : TimerId.deleted ∉ nb0 :: nb2 :=
      fun hc => hdelb (List.mem_cons_of_mem _ hc)
    have hwinnb0 := hwin nb0 (by simp)
    cases res with
    | done =>
      simp [sched_timer_dispatch, hlst3]
      by_cases hlim : st.li = TimerId.user m <;>
        simp only [hlim, if_true, if_false, reduceIte] <;>
        [skip; skip]
      case pos =>
        refine ⟨hb, nb0 :: nb2, by simp, ⟨hndc.2, hwinT, hsortT, hanchor1, ?_⟩,
          by simp, hpert, by simp, ?_⟩
        · intro hdc
          exact absurd hdc hdelnbT
        · intro he
          exact hdelnbT (by rw [← he]; exact List.mem_cons_self _ _)
      case neg =>
        refine ⟨hb, nb0 :: nb2, by simp, ⟨hndc.2, hwinT, hsortT, hanchor1, ?_⟩,
          by simp, hpert, ?_, hlid⟩
        · intro hdc
          exact absurd hdc hdelnbT
        · rcases List.mem_cons.mp hli with h2 | h2
          · exact absurd h2 hlim
          · exact h2
    | resch =>
      by_cases hstay : timer_is_before wcb (st.wk nb0) = true
      · -- the updated timer stays at the head
        simp [sched_timer_dispatch, hlst3, hnb0wk, hstay]
        refine ⟨hb, TimerId.user m :: nb0 :: nb2, by simp, ⟨hnd, ?_, ?_, hanchor1, ?_⟩,
          by simp, hper, hli, hlid⟩
        · intro x hx
          dsimp only
          rcases List.mem_cons.mp hx with rfl | hx2
          · rw [hwk1h]
            exact ⟨hw32, hkw⟩
          · exact hwinT x hx2
        · rw [SortedK]
          dsimp only
          rw [List.pairwise_cons]
          refine ⟨?_, hsortT⟩
          intro y hy
          rw [hwk1h]
          have hltn : key b wcb < key b (st.wk nb0) :=
            (tib_true_iff_key b wcb (st.wk nb0) hb hw32 hwinnb0.1 hkw hwinnb0.2).mp hstay
          rcases List.mem_cons.mp hy with rfl | hy2
          · rw [hnb0wk]
            exact le_of_lt hltn
          · rw [hwk1t y (List.mem_cons_of_mem _ hy2)]
            have h3 := (List.pairwise_cons.mp (List.pairwise_cons.mp hsort).2).1 y hy2
            exact le_of_lt (lt_of_lt_of_le hltn h3)
        · intro hdc
          exact absurd hdc hdelb
      · -- the updated timer moves down the list
        rw [Bool.not_eq_true] at hstay
        have hguardn : timer_is_before wcb
            (Function.update st.wk (TimerId.user m) wcb nb0) = false := by
          rw [hnb0wk]
          exact hstay
        by_cases hlih : st.li = TimerId.user m
        · -- the hint points at the timer being re-inserted: scan from it
          obtain ⟨u, vb, hsplit, hins, hnd2, hwin2, hsort2, hmem2⟩ :=
            insert_preserves b (Function.update st.wk (TimerId.user m) wcb) [] nb2 nb0
              (.user m) wcb hb (by simpa using hndc.2) (by simpa using hwinT)
              (by simpa using hsortT) hanchor1 hperw1.1 hperw1.2 hw32 hkw hwk1h
              (by simpa using hh0nb) (by simp) hguardn (Or.inr hpert)
          simp only [List.nil_append] at hnd2 hwin2 hsort2 hmem2
          have hins2 : insertAux (Function.update st.wk (TimerId.user m) wcb) wcb
              (.user m) (nb0 :: (nb2 ++ [TimerId.sentinel])) =
              some (nb0 :: u ++ TimerId.user m :: (vb ++ [TimerId.sentinel])) := hins
          simp [sched_timer_dispatch, hlst3, hnb0wk, hstay, hlih, hwk1h, tib_irrefl,
            insertAux, hins2]
          refine ⟨hb, nb0 :: u ++ TimerId.user m :: vb, by simp,
            ⟨hnd2, hwin2, hsort2, hanchor1, ?_⟩, by simp, ?_, ?_, by simp⟩
          · intro hdc
            rcases (hmem2 _).mp hdc with h2 | h2
            · exact absurd h2 hdelnbT
            · simp at h2
          · exact (hmem2 _).mpr (Or.inl hpert)
          · exact (hmem2 _).mpr (Or.inr rfl)
        · have hliwk : Function.update st.wk (TimerId.user m) wcb st.li = st.wk st.li :=
            Function.update_noteq hlih _ _
          have hlibt : st.li ∈ nb0 :: nb2 := by
            rcases List.mem_cons.mp hli with h2 | h2
            · exact absurd h2 hlih
            · exact h2
          by_cases hgi : timer_is_before wcb (st.wk st.li) = true
          · -- hint already past the new waketime: scan from the new head
            have hne0 : nb0 ≠ TimerId.user m := by
              intro he
              apply hh0nb
              rw [← he]
              exact List.mem_cons_self _ _
            obtain ⟨p, u, vb, hbt2, hsf2, hins2, hLC, hperm2, hh0m⟩ :=
              dispatch_move_insert b (Function.update st.wk (TimerId.user m) wcb)
                (.user m) nb0 wcb (nb0 :: nb2) hb hndc.2 hwinT hsortT hanchor1
                hperw1.1 hperw1.2 hw32 hkw hwk1h hh0nb (by simp) (by simp) hdelnbT
                (Or.inl hpert) (by simp) hguardn
            have hsf3 : suffixFrom nb0 (nb0 :: (nb2 ++ [TimerId.sentinel])) =
                some (p, nb0 :: ((u ++ vb) ++ [TimerId.sentinel])) := hsf2
            have hins3 : insertAux (Function.update st.wk (TimerId.user m) wcb) wcb
                (TimerId.user m) (nb0 :: (u ++ (vb ++ [TimerId.sentinel]))) =
                some (nb0 :: u ++ TimerId.user m :: (vb ++ [TimerId.sentinel])) := by
              rw [show nb0 :: (u ++ (vb ++ [TimerId.sentinel])) =
                  nb0 :: ((u ++ vb) ++ [TimerId.sentinel]) from by simp]
              exact hins2
            simp [sched_timer_dispatch, hlst3, hnb0wk, hstay, hliwk, hgi, hne0,
              hsf3, hins3]
            refine ⟨hb, p ++ nb0 :: u ++ TimerId.user m :: vb, by simp, hLC,
              by simp, hperm2, hh0m, by simp⟩
          · rw [Bool.not_eq_true] at hgi
            have hguardli : timer_is_before wcb
                (Function.update st.wk (TimerId.user m) wcb st.li) = false := by
              rw [hliwk]
              exact hgi
            obtain ⟨p, u, vb, hbt2, hsf2, hins2, hLC, hperm2, hh0m⟩ :=
              dispatch_move_insert b (Function.update st.wk (TimerId.user m) wcb)
                (.user m) st.li wcb (nb0 :: nb2) hb hndc.2 hwinT hsortT hanchor1
                hperw1.1 hperw1.2 hw32 hkw hwk1h hh0nb (by simp) (by simp) hdelnbT
                (Or.inl hpert) hlibt hguardli
            have hsf3 : suffixFrom st.li (nb0 :: (nb2 ++ [TimerId.sentinel])) =
                some (p, st.li :: ((u ++ vb) ++ [TimerId.sentinel])) := by
              have h4 := hsf2
              rw [show (nb0 :: nb2) ++ [TimerId.sentinel] =
                  nb0 :: (nb2 ++ [TimerId.sentinel]) from rfl] at h4
              exact h4
            have hins3 : insertAux (Function.update st.wk (TimerId.user m) wcb) wcb
                (TimerId.user m) (st.li :: (u ++ (vb ++ [TimerId.sentinel]))) =
                some (st.li :: u ++ TimerId.user m :: (vb ++ [TimerId.sentinel])) := by
              rw [show st.li :: (u ++ (vb ++ [TimerId.sentinel])) =
                  st.li :: ((u ++ vb) ++ [TimerId.sentinel]) from by simp]
              exact hins2
            simp [sched_timer_dispatch, hlst3, hnb0wk, hstay, hliwk, hgi, hlih,
              hsf3, hins3]
            refine ⟨hb, p ++ st.li :: u ++ TimerId.user m :: vb, by simp, hLC,
              by simp, hperm2, hh0m, by simp⟩


theorem head_of_split (p : List TimerId) (x nb0 : TimerId) (r A B : List TimerId)
    (h : nb0 :: r = p ++ x :: A) : (p ++ x :: B).head? = some nb0 := by
  cases p with
  | nil =>
    simp only [List.nil_append, List.cons.injEq] at h
    simp [h.1]
  | cons a p2 =>
    simp only [List.cons_append, List.cons.injEq] at h
    simp [h.1]

/-- C1 counterexample: strict sortedness between adjacent nodes fails after a
head-displacing `sched_add_timer`: the deleted pseudo-head carries the new
timer's own waketime, so the first adjacent pair has equal waketimes and
`timer_is_before` of the pair is false. -/
theorem strict_sort_fails_after_add :
    sched_add_timer (TimerId.user 1) { W0 with now := 800 } = .ok
      { W0 with
        now := 800
        wk := Function.update baseWk TimerId.deleted 900
        list := [TimerId.deleted, TimerId.user 1, TimerId.periodic, TimerId.sentinel]
        kicked := true } ∧
    timer_is_before (Function.update baseWk TimerId.deleted 900 TimerId.deleted)
      (Function.update baseWk TimerId.deleted 900 (TimerId.user 1)) = false :=
  ⟨rfl, by decide⟩

/-- C1 (amended): each public timer operation, run from a state satisfying the
scheduler invariant (non-empty list ending at the sentinel, waketimes sorted
non-strictly by half-range window keys, sentinel anchored half a range above
the periodic timer, the deleted pseudo-timer at most at the head,
`last_insert` a live non-deleted node) and supplied with waketimes inside the
current half-range window, yields a state satisfying the same invariant
whenever it completes normally. -/
theorem sched_ops_preserve_invariant (b : Nat) (st : Sched) (h : SchedInv b st) :
    (∀ n, st.wk (.user n) < u32 → key b (st.wk (.user n)) < half32 →
      TimerId.user n ∉ st.list →
      match sched_add_timer (.user n) st with
      | .ok st2 => SchedInv b st2
      | _ => True) ∧
    (∀ n, SchedInv b (sched_del_timer (.user n) st)) ∧
    (∀ tfu res wcb, wcb < u32 → key b wcb < half32 →
      key b ((st.wk .periodic + tfu) % u32) < half32 →
      match sched_timer_dispatch tfu res wcb st with
      | .ok st2 _ => SchedInv b st2
      | _ => True) ∧
    SchedInv b (sched_timer_reset st) :=
  ⟨fun n h1 h2 h3 => add_preserves_inv b st n h h1 h2 h3,
   fun n => del_preserves_inv b st n h,
   fun tfu res wcb h1 h2 h3 => dispatch_preserves_inv b st tfu res wcb h h1 h2 h3,
   reset_preserves_inv b st h⟩

theorem sched_ops_preserve_invariant_witness :
    SchedInv 0 (sched_del_timer (.user 5) W0) := by
  have hW0 : SchedInv 0 W0 := by
    refine ⟨by decide, [TimerId.periodic], rfl,
      ⟨by decide, ?_, ?_, by decide, by decide⟩, by simp, by simp, by decide, by decide⟩
    · intro x hx
      simp only [List.mem_singleton] at hx
      subst hx
      decide
    · exact List.pairwise_singleton _ _
  exact (sched_ops_preserve_invariant 0 W0 hW0).2.1 5

/-- C2: from any state satisfying the scheduler invariant, with the supplied
waketimes inside the half-range window, `sched_timer_dispatch` completes
normally and returns the waketime of the timer at the head of the
post-dispatch list.  On a user-timer head that is the successor's waketime
when the callback returns DONE, the updated waketime when it reschedules
still before the successor, and the successor's when it is re-inserted
further down; on a deleted head (callback DONE) the successor's waketime; on
a periodic head (callback reschedules at the refreshed waketime) the
refreshed waketime or the successor's by the same comparison, the refreshed
waketime on the boot list `periodic → sentinel`. -/
theorem dispatch_returns_new_head_waketime (b : Nat) (st : Sched) (tfu : Nat)
    (res : CbRes) (wcb : Nat)
    (h : SchedInv b st) (hw32 : wcb < u32) (hkw : key b wcb < half32)
    (htfu : key b ((st.wk .periodic + tfu) % u32) < half32) :
    match sched_timer_dispatch tfu res wcb st with
    | .ok st2 next =>
        (∃ hd, st2.list.head? = some hd ∧ next = st2.wk hd) ∧
        (∀ m s r2, st.list = TimerId.user m :: s :: r2 →
          (res = .done → next = st.wk s) ∧
          (res = .resch → timer_is_before wcb (st.wk s) = true → next = wcb) ∧
          (res = .resch → timer_is_before wcb (st.wk s) = false → next = st.wk s)) ∧
        (∀ s r2, st.list = TimerId.deleted :: s :: r2 → next = st.wk s) ∧
        (∀ r2, st.list = TimerId.periodic :: TimerId.sentinel :: r2 →
          next = (st.wk TimerId.periodic + tfu) % u32) ∧
        (∀ s r2, st.list = TimerId.periodic :: s :: r2 → s ≠ TimerId.sentinel →
          (timer_is_before ((st.wk TimerId.periodic + tfu) % u32) (st.wk s) = true →
            next = (st.wk TimerId.periodic + tfu) % u32) ∧
          (timer_is_before ((st.wk TimerId.periodic + tfu) % u32) (st.wk s) = false →
            next = st.wk s))
    | _ => False := by
  obtain ⟨hb, body, hlst, ⟨hnd, hwin, hsort, hanchor, hdelpos⟩, hbne, hper, hli, hlid⟩ := h
  cases body with
  | nil => exact absurd rfl hbne
  | cons h0 btail =>
  have hlst2 : st.list = h0 :: (btail ++ [TimerId.sentinel]) := by simpa using hlst
  have hndc : h0 ∉ btail ++ [TimerId.sentinel] ∧ (btail ++ [TimerId.sentinel]).Nodup := by
    have h2 := hnd
    rw [show (h0 :: btail) ++ [TimerId.sentinel] =
          h0 :: (btail ++ [TimerId.sentinel]) from rfl, List.nodup_cons] at h2
    exact h2
  have hh0nb : h0 ∉ btail := fun hc => hndc.1 (List.mem_append_left _ hc)
  cases h0 with
  | sentinel => exact absurd (List.mem_append_right _ (by simp)) hndc.1
  | deleted =>
    have hpert : TimerId.periodic ∈ btail := by
      rcases List.mem_cons.mp hper with h2 | h2
      · simp at h2
      · exact h2
    cases btail with
    | nil => simp at hpert
    | cons nb0 nb2 =>
    have hlst3 : st.list = TimerId.deleted :: nb0 :: (nb2 ++ [TimerId.sentinel]) := by
      simpa using hlst
    simp [sched_timer_dispatch, hlst3, hlid]
  | periodic =>
    obtain ⟨pu, hpu⟩ : ∃ x, (st.wk TimerId.periodic + tfu) % u32 = x := ⟨_, rfl⟩
    rw [hpu] at htfu
    have hpu32 : pu < u32 := by
      rw [← hpu]
      exact Nat.mod_lt _ (by decide)
    have hsentb : TimerId.sentinel ∉ btail := fun hc =>
      (List.nodup_append.mp hndc.2).2.2 hc (by simp)
    obtain ⟨wk1, hwk1⟩ : ∃ f, Function.update (Function.update st.wk TimerId.periodic pu)
        TimerId.sentinel ((pu + half32) % u32) = f := ⟨_, rfl⟩
    have hps : TimerId.periodic ≠ TimerId.sentinel := by simp
    have hwk1p : wk1 TimerId.periodic = pu := by
      rw [← hwk1, Function.update_noteq hps, Function.update_same]
    have hwk1s : wk1 TimerId.sentinel = (pu + half32) % u32 := by
      rw [← hwk1]
      exact Function.update_same _ _ _
    have hwk1t : ∀ x ∈ btail, wk1 x = st.wk x := by
      intro x hx
      have hxs : x ≠ TimerId.sentinel := fun he => hsentb (by rwa [he] at hx)
      have hxp : x ≠ TimerId.periodic := fun he => hh0nb (by rwa [he] at hx)
      rw [← hwk1, Function.update_noteq hxs, Function.update_noteq hxp]
    have hanchor1 : wk1 TimerId.sentinel = (wk1 TimerId.periodic + half32) % u32 := by
      rw [hwk1s, hwk1p]
    have hperw1 : wk1 TimerId.periodic < u32 ∧ key b (wk1 TimerId.periodic) < half32 := by
      rw [hwk1p]
      exact ⟨hpu32, htfu⟩
    have hdelb : TimerId.deleted ∉ TimerId.periodic :: btail := by
      intro hc
      have h2 := hdelpos hc
      simp at h2
    cases btail with
    | nil =>
      have hlst3 : st.list = TimerId.periodic :: [TimerId.sentinel] := by simpa using hlst
      have hforce : timer_is_before pu ((pu + half32) % u32) = true :=
        tib_sent_true b pu pu hb hpu32 hpu32 htfu htfu (le_refl _)
      simp [sched_timer_dispatch, hlst3, hpu, hwk1, hwk1s, hwk1p, hforce]
    | cons nb0 nb2 =>
    have hlst3 : st.list = TimerId.periodic :: nb0 :: (nb2 ++ [TimerId.sentinel]) := by
      simpa using hlst
    have hnb0s : nb0 ≠ TimerId.sentinel := fun he => hsentb (by rw [← he]; simp)
    have hnb0wk : wk1 nb0 = st.wk nb0 := hwk1t nb0 (by simp)
    have hwinT : Windowed b wk1 (nb0 :: nb2) :=
      transfer_win b st.wk _ _ hwk1t (fun x hx => hwin x (List.mem_cons_of_mem _ hx))
    have hsortT : SortedK b wk1 (nb0 :: nb2) :=
      transfer_sort b st.wk _ _ hwk1t (List.pairwise_cons.mp hsort).2
    have hdelbT : TimerId.deleted ∉ nb0 :: nb2 :=
      fun hc => hdelb (List.mem_cons_of_mem _ hc)
    by_cases hstay : timer_is_before pu (st.wk nb0) = true
    · -- the refreshed periodic timer stays at the head
      simp [sched_timer_dispatch, hlst3, hpu, hwk1, hnb0wk, hstay, hwk1p]
    · -- the refreshed periodic timer moves down the list
      rw [Bool.not_eq_true] at hstay
      have hguardn : timer_is_before pu (wk1 nb0) = false := by
        rw [hnb0wk]
        exact hstay
      by_cases hlih : st.li = TimerId.periodic
      · obtain ⟨u, vb, hsplit, hins, hnd2, hwin2, hsort2, hmem2⟩ :=
          insert_preserves b wk1 [] nb2 nb0 TimerId.periodic pu hb (by simpa using hndc.2)
            (by simpa using hwinT) (by simpa using hsortT) hanchor1 hperw1.1 hperw1.2
            hpu32 htfu hwk1p (by simpa using hh0nb) (by simp) hguardn
            (Or.inl (by rw [hwk1p]))
        have hins2 : insertAux wk1 pu TimerId.periodic (nb0 :: (nb2 ++ [TimerId.sentinel])) =
            some (nb0 :: u ++ TimerId.periodic :: (vb ++ [TimerId.sentinel])) := hins
        simp [sched_timer_dispatch, hlst3, hpu, hwk1, hnb0wk, hstay, hlih, hwk1p,
          tib_irrefl, insertAux, hins2]
        intro he
        exact absurd he hnb0s
      · have hlibt : st.li ∈ nb0 :: nb2 := by
          rcases List.mem_cons.mp hli with h2 | h2
          · exact absurd h2 hlih
          · exact h2
        have hliwk : wk1 st.li = st.wk st.li := hwk1t _ hlibt
        by_cases hgi : timer_is_before pu (st.wk st.li) = true
        · have hne0 : nb0 ≠ TimerId.periodic := by
            intro he
            exact hh0nb (by rw [← he]; exact List.mem_cons_self _ _)
          obtain ⟨p, u, vb, hbt2, hsf2, hins2, hLC, hperm2, hh0m⟩ :=
            dispatch_move_insert b wk1 TimerId.periodic nb0 pu (nb0 :: nb2) hb hndc.2
              hwinT hsortT hanchor1 hperw1.1 hperw1.2 hpu32 htfu hwk1p hh0nb
              (by simp) (by simp) hdelbT (Or.inr rfl) (by simp) hguardn
          have hsf3 : suffixFrom nb0 (nb0 :: (nb2 ++ [TimerId.sentinel])) =
              some (p, nb0 :: ((u ++ vb) ++ [TimerId.sentinel])) := hsf2
          have hins3 : insertAux wk1 pu TimerId.periodic
              (nb0 :: (u ++ (vb ++ [TimerId.sentinel]))) =
              some (nb0 :: u ++ TimerId.periodic :: (vb ++ [TimerId.sentinel])) := by
            rw [show nb0 :: (u ++ (vb ++ [TimerId.sentinel])) =
                nb0 :: ((u ++ vb) ++ [TimerId.sentinel]) from by simp]
            exact hins2
          simp [sched_timer_dispatch, hlst3, hpu, hwk1, hnb0wk, hstay, hliwk, hgi,
            hne0, hsf3, hins3]
          refine ⟨⟨nb0, ?_, hnb0wk.symm⟩, fun he => absurd he hnb0s⟩
          cases p with
          | nil => exact Or.inr ⟨rfl, rfl⟩
          | cons a p2 =>
            simp only [List.cons_append, List.cons.injEq] at hbt2
            exact Or.inl (by simp [hbt2.1])
        · rw [Bool.not_eq_true] at hgi
          have hguardli : timer_is_before pu (wk1 st.li) = false := by
            rw [hliwk]
            exact hgi
          obtain ⟨p, u, vb, hbt2, hsf2, hins2, hLC, hperm2, hh0m⟩ :=
            dispatch_move_insert b wk1 TimerId.periodic st.li pu (nb0 :: nb2) hb hndc.2
              hwinT hsortT hanchor1 hperw1.1 hperw1.2 hpu32 htfu hwk1p hh0nb
              (by simp) (by simp) hdelbT (Or.inr rfl) hlibt hguardli
          have hsf3 : suffixFrom st.li (nb0 :: (nb2 ++ [TimerId.sentinel])) =
              some (p, st.li :: ((u ++ vb) ++ [TimerId.sentinel])) := by
            have h4 := hsf2
            rw [show (nb0 :: nb2) ++ [TimerId.sentinel] =
                nb0 :: (nb2 ++ [TimerId.sentinel]) from rfl] at h4
            exact h4
          have hins3 : insertAux wk1 pu TimerId.periodic
              (st.li :: (u ++ (vb ++ [TimerId.sentinel]))) =
              some (st.li :: u ++ TimerId.periodic :: (vb ++ [TimerId.sentinel])) := by
            rw [show st.li :: (u ++ (vb ++ [TimerId.sentinel])) =
                st.li :: ((u ++ vb) ++ [TimerId.sentinel]) from by simp]
            exact hins2
          simp [sched_timer_dispatch, hlst3, hpu, hwk1, hnb0wk, hstay, hliwk, hgi,
            hlih, hsf3, hins3]
          refine ⟨⟨nb0, ?_, hnb0wk.symm⟩, fun he => absurd he hnb0s⟩
          cases p with
          | nil =>
            simp only [List.nil_append, List.cons.injEq] at hbt2
            exact Or.inr ⟨rfl, hbt2.1.symm⟩
          | cons a p2 =>
            simp only [List.cons_append, List.cons.injEq] at hbt2
            exact Or.inl (by simp [hbt2.1])
  | user m =>
    have hpert : TimerId.periodic ∈ btail := by
      rcases List.mem_cons.mp hper with h2 | h2
      · simp at h2
      · exact h2
    have hdelb : TimerId.deleted ∉ TimerId.user m :: btail := by
      intro hc
      have h2 := hdelpos hc
      simp at h2
    cases btail with
    | nil => simp at hpert
    | cons nb0 nb2 =>
    have hlst3 : st.list = TimerId.user m :: nb0 :: (nb2 ++ [TimerId.sentinel]) := by
      simpa using hlst
    have hwk1t : ∀ x ∈ nb0 :: nb2,
        Function.update st.wk (TimerId.user m) wcb x = st.wk x := by
      intro x hx
      exact Function.update_noteq (fun he => hh0nb (by rwa [he] at hx)) _ _
    have hnb0wk : Function.update st.wk (TimerId.user m) wcb nb0 = st.wk nb0 :=
      hwk1t nb0 (by simp)
    have hwk1p : Function.update st.wk (TimerId.user m) wcb TimerId.periodic =
        st.wk .periodic := Function.update_noteq (by simp) _ _
    have hwk1s : Function.update st.wk (TimerId.user m) wcb TimerId.sentinel =
        st.wk .sentinel := Function.update_noteq (by simp) _ _
    have hwk1h : Function.update st.wk (TimerId.user m) wcb (TimerId.user m) = wcb :=
      Function.update_same _ _ _
    have hwinT : Windowed b (Function.update st.wk (TimerId.user m) wcb) (nb0 :: nb2) :=
      transfer_win b st.wk _ _ hwk1t (fun x hx => hwin x (List.mem_cons_of_mem _ hx))
    have hsortT : SortedK b (Function.update st.wk (TimerId.user m) wcb) (nb0 :: nb2) :=
      transfer_sort b st.wk _ _ hwk1t (List.pairwise_cons.mp hsort).2
    have hanchor1 : Function.update st.wk (TimerId.user m) wcb TimerId.sentinel =
        (Function.update st.wk (TimerId.user m) wcb TimerId.periodic + half32) % u32 := by
      rw [hwk1s, hwk1p]
      exact hanchor
    have hperw1 : Function.update st.wk (TimerId.user m) wcb TimerId.periodic < u32 ∧
        key b (Function.update st.wk (TimerId.user m) wcb TimerId.periodic) < half32 := by
      rw [hwk1p]
      exact hwin .periodic hper
    have hdelnbT : TimerId.deleted ∉ nb0 :: nb2 :=
      fun hc => hdelb (List.mem_cons_of_mem _ hc)
    cases res with
    | done =>
      simp [sched_timer_dispatch, hlst3, hnb0wk]
    | resch =>
      by_cases hstay : timer_is_before wcb (st.wk nb0) = true
      · simp [sched_timer_dispatch, hlst3, hnb0wk, hstay, hwk1h]
      · rw [Bool.not_eq_true] at hstay
        have hguardn : timer_is_before wcb
            (Function.update st.wk (TimerId.user m) wcb nb0) = false := by
          rw [hnb0wk]
          exact hstay
        by_cases hlih : st.li = TimerId.user m
        · obtain ⟨u, vb, hsplit, hins, hnd2, hwin2, hsort2, hmem2⟩ :=
            insert_preserves b (Function.update st.wk (TimerId.user m) wcb) [] nb2 nb0
              (.user m) wcb hb (by simpa using hndc.2) (by simpa using hwinT)
              (by simpa using hsortT) hanchor1 hperw1.1 hperw1.2 hw32 hkw hwk1h
              (by simpa using hh0nb) (by simp) hguardn (Or.inr hpert)
          have hins2 : insertAux (Function.update st.wk (TimerId.user m) wcb) wcb
              (.user m) (nb0 :: (nb2 ++ [TimerId.sentinel])) =
              some (nb0 :: u ++ TimerId.user m :: (vb ++ [TimerId.sentinel])) := hins
          simp [sched_timer_dispatch, hlst3, hnb0wk, hstay, hlih, hwk1h, tib_irrefl,
            insertAux, hins2]
        · have hliwk : Function.update st.wk (TimerId.user m) wcb st.li = st.wk st.li :=
            Function.update_noteq hlih _ _
          have hlibt : st.li ∈ nb0 :: nb2 := by
            rcases List.mem_cons.mp hli with h2 | h2
            · exact absurd h2 hlih
            · exact h2
          by_cases hgi : timer_is_before wcb (st.wk st.li) = true
          · have hne0 : nb0 ≠ TimerId.user m := by
              intro he
              apply hh0nb
              rw [← he]
              exact List.mem_cons_self _ _
            obtain ⟨p, u, vb, hbt2, hsf2, hins2, hLC, hperm2, hh0m⟩ :=
              dispatch_move_insert b (Function.update st.wk (TimerId.user m) wcb)
                (.user m) nb0 wcb (nb0 :: nb2) hb hndc.2 hwinT hsortT hanchor1
                hperw1.1 hperw1.2 hw32 hkw hwk1h hh0nb (by simp) (by simp) hdelnbT
                (Or.inl hpert) (by simp) hguardn
            have hsf3 : suffixFrom nb0 (nb0 :: (nb2 ++ [TimerId.sentinel])) =
                some (p, nb0 :: ((u ++ vb) ++ [TimerId.sentinel])) := hsf2
            have hins3 : insertAux (Function.update st.wk (TimerId.user m) wcb) wcb
                (TimerId.user m) (nb0 :: (u ++ (vb ++ [TimerId.sentinel]))) =
                some (nb0 :: u ++ TimerId.user m :: (vb ++ [TimerId.sentinel])) := by
              rw [show nb0 :: (u ++ (vb ++ [TimerId.sentinel])) =
                  nb0 :: ((u ++ vb) ++ [TimerId.sentinel]) from by simp]
              exact hins2
            simp [sched_timer_dispatch, hlst3, hnb0wk, hstay, hliwk, hgi, hne0,
              hsf3, hins3]
            refine ⟨nb0, ?_, hnb0wk.symm⟩
            cases p with
            | nil => exact Or.inr ⟨rfl, rfl⟩
            | cons a p2 =>
              simp only [List.cons_append, List.cons.injEq] at hbt2
              exact Or.inl (by simp [hbt2.1])
          · rw [Bool.not_eq_true] at hgi
            have hguardli : timer_is_before wcb
                (Function.update st.wk (TimerId.user m) wcb st.li) = false := by
              rw [hliwk]
              exact hgi
            obtain ⟨p, u, vb, hbt2, hsf2, hins2, hLC, hperm2, hh0m⟩ :=
              dispatch_move_insert b (Function.update st.wk (TimerId.user m) wcb)
                (.user m) st.li wcb (nb0 :: nb2) hb hndc.2 hwinT hsortT hanchor1
                hperw1.1 hperw1.2 hw32 hkw hwk1h hh0nb (by simp) (by simp) hdelnbT
                (Or.inl hpert) hlibt hguardli
            have hsf3 : suffixFrom st.li (nb0 :: (nb2 ++ [TimerId.sentinel])) =
                some (p, st.li :: ((u ++ vb) ++ [TimerId.sentinel])) := by
              have h4 := hsf2
              rw [show (nb0 :: nb2) ++ [TimerId.sentinel] =
                  nb0 :: (nb2 ++ [TimerId.sentinel]) from rfl] at h4
              exact h4
            have hins3 : insertAux (Function.update st.wk (TimerId.user m) wcb) wcb
                (TimerId.user m) (st.li :: (u ++ (vb ++ [TimerId.sentinel]))) =
                some (st.li :: u ++ TimerId.user m :: (vb ++ [TimerId.sentinel])) := by
              rw [show st.li :: (u ++ (vb ++ [TimerId.sentinel])) =
                  st.li :: ((u ++ vb) ++ [TimerId.sentinel]) from by simp]
              exact hins2
            simp [sched_timer_dispatch, hlst3, hnb0wk, hstay, hliwk, hgi, hlih,
              hsf3, hins3]
            refine ⟨nb0, ?_, hnb0wk.symm⟩
            cases p with
            | nil =>
              simp only [List.nil_append, List.cons.injEq] at hbt2
              exact Or.inr ⟨rfl, hbt2.1.symm⟩
            | cons a p2 =>
              simp only [List.cons_append, List.cons.injEq] at hbt2
              exact Or.inl (by simp [hbt2.1])

theorem dispatch_returns_new_head_waketime_witness :
    (match sched_timer_dispatch 0 CbRes.resch 1200 WC2 with
    | .ok st2 next =>
        (∃ hd, st2.list.head? = some hd ∧ next = st2.wk hd) ∧
        (∀ m s r2, WC2.list = TimerId.user m :: s :: r2 →
          (CbRes.resch = CbRes.done → next = WC2.wk s) ∧
          (CbRes.resch = CbRes.resch →
            timer_is_before 1200 (WC2.wk s) = true → next = 1200) ∧
          (CbRes.resch = CbRes.resch →
            timer_is_before 1200 (WC2.wk s) = false → next = WC2.wk s)) ∧
        (∀ s r2, WC2.list = TimerId.deleted :: s :: r2 → next = WC2.wk s) ∧
        (∀ r2, WC2.list = TimerId.periodic :: TimerId.sentinel :: r2 →
          next = (WC2.wk TimerId.periodic + 0) % u32) ∧
        (∀ s r2, WC2.list = TimerId.periodic :: s :: r2 → s ≠ TimerId.sentinel →
          (timer_is_before ((WC2.wk TimerId.periodic + 0) % u32) (WC2.wk s) = true →
            next = (WC2.wk TimerId.periodic + 0) % u32) ∧
          (timer_is_before ((WC2.wk TimerId.periodic + 0) % u32) (WC2.wk s) = false →
            next = WC2.wk s))
    | _ => False) := by
  have hinv : SchedInv 0 WC2 := by
    refine ⟨by decide, [TimerId.user 1, TimerId.periodic], rfl,
      ⟨by decide, ?_, ?_, by decide, by decide⟩, by simp, by simp, by decide, by decide⟩
    · intro x hx
      fin_cases hx <;> decide
    · rw [SortedK]
      refine List.Pairwise.cons ?_ (List.pairwise_singleton _ _)
      intro y hy
      fin_cases hy
      decide
  exact dispatch_returns_new_head_waketime 0 WC2 0 CbRes.resch 1200 hinv
    (by decide) (by decide) (by decide)
